import Mathlib

/-!
Verification development for the `shpack` script bundler (`src/main.rs`).

The program is embedded shallowly:

* Text is modelled as `List Char`, indexed by position; all concrete inputs
  used below are ASCII, so byte offsets and character offsets coincide.
* The tree-sitter bash grammar is an external collaborator.  A parsed
  document is modelled by the abstract tree type `STNode` (kind tag, named
  flag, byte span, starting row, children); the parser itself, the
  filesystem, path canonicalization / `Path::strip_prefix`, and the shell
  used for `bash -c` sub-commands are oracles collected in `Env`.
* The recursion of `_bundle_from_path` through `_bundle_from_string` is
  bounded by an explicit `fuel` parameter, decremented once per include;
  `fuel` larger than the include nesting depth reproduces the program.
* `usize`/`isize` arithmetic that can wrap in the program is modelled
  explicitly (`lenPred`, `intToUsize`).
-/

namespace Shpack

abbrev Str := List Char

/-- A node of the parsed syntax tree: kind tag, tree-sitter "named" flag,
half-open byte span `[start_byte, end_byte)`, row of the start position,
and the list of all children (named and anonymous) in document order. -/
inductive STNode where
  | mk (kind : String) (named : Bool) (start_byte end_byte row : Nat)
      (children : List STNode)

deriving Repr

def STNode.kind : STNode → String
  | .mk k _ _ _ _ _ => k

def STNode.named : STNode → Bool
  | .mk _ nm _ _ _ _ => nm

def STNode.start_byte : STNode → Nat
  | .mk _ _ s _ _ _ => s

def STNode.end_byte : STNode → Nat
  | .mk _ _ _ e _ _ => e

def STNode.row : STNode → Nat
  | .mk _ _ _ _ r _ => r

def STNode.children : STNode → List STNode
  | .mk _ _ _ _ _ cs => cs

/-- `Node::text`: the slice `&source[start_byte..end_byte]`. -/
def textOf (source : Str) (n : STNode) : Str :=
  (source.take n.end_byte).drop n.start_byte

/-- `next_named_sibling` relative to the list of following siblings. -/
def firstNamed : List STNode → Option STNode
  | [] => none
  | c :: rest => if c.named then some c else firstNamed rest

mutual

/-- All nodes of the subtree rooted at `n`, in pre-order. -/
def STNode.nodes : STNode → List STNode
  | .mk k nm s e r cs => .mk k nm s e r cs :: forestNodes cs

/-- All nodes of a forest, in pre-order. -/
def forestNodes : List STNode → List STNode
  | [] => []
  | c :: rest => c.nodes ++ forestNodes rest

end

/-- Sibling context a node is visited with: its own next sibling (any),
its next named sibling, and its parent's next named sibling. -/
structure Ctx where
  next : Option STNode
  nextNamed : Option STNode
  parentNextNamed : Option STNode

/-- `{start_byte, end_byte, new_content}`: a planned replacement of a
half-open byte range of the original document. -/
structure Edit where
  start_byte : Nat
  end_byte : Nat
  new_content : Str

deriving DecidableEq, Repr

/-- Result of running `bash -c <command>`: exit success flag, exit code,
and the raw stdout/stderr bytes. -/
structure ExecResult where
  success : Bool
  code : Int
  stdout : List Nat
  stderr : List Nat

/-- The oracles the bundler core interacts with: the bash parser, the
filesystem (`fs::read_to_string`), `Path::parent`,
`cwd.join(path).canonicalize()`, `Path::strip_prefix` (`rel root path`),
and the shell used to execute inline-build sub-commands (`none` models a
spawn failure of `bash` itself). -/
structure Env where
  parse : Str → Option STNode
  readFile : Str → Option Str
  parentDir : Str → Option Str
  canonical : Str → Str → Option Str
  rel : Str → Str → Option Str
  run : Str → Option ExecResult

/-- The run state of `struct Bundler`. -/
structure Bundler where
  path_relative_to : Str
  shabang : Option Str
  visiting : List Str
  visited : List Str

deriving DecidableEq

/-- The error taxonomy of the program; each constructor corresponds to one
`eyre!`/panic site and carries the data interpolated into the message. -/
inductive BundleError where
  | parseFailure
  /-- "Only one shabang per file is allowed" -/
  | shabangDuplicate
  /-- "The shabang must be at the top of the file" -/
  | shabangMisplaced
  /-- "Shabangs across all files must match. Found {} and {}" -/
  | shabangConflict (saved found : Str)
  /-- "A shabang is required" (per `_bundle_from_string` call) -/
  | shabangRequired
  /-- "Shabang is missing" (top-level `bundle`) -/
  | shabangMissing
  /-- "Circular dependencies are not supported!" -/
  | circularDependency
  /-- `fs::read_to_string(path)?` failed -/
  | readFailure
  /-- "Can't source the root directory" -/
  | cannotSourceRoot
  /-- "source command missing its argument" -/
  | sourceMissingArgument
  /-- "failed to get full path for source: \"{}\"" -/
  | pathResolutionFailure (path_str : Str)
  /-- "trying to access script outside of current working directory: {}" -/
  | outsideRoot (path_str : Str)
  /-- model artifact: the include-nesting fuel ran out -/
  | outOfFuel
  /-- `Command::new("bash")...output()?` failed to spawn -/
  | spawnFailure
  /-- "\"{}\" returned with exit code {}" -/
  | subcommandFailed (command : Str) (code : Int)
  /-- `std::str::from_utf8(&output.stderr)?` failed -/
  | stderrNotUtf8
  /-- "edits are not disjoint" -/
  | editsNotDisjoint
  /-- panic: index out of bounds in the disjointness-check loop -/
  | panicIndexOutOfBounds

deriving DecidableEq, Repr

deriving instance DecidableEq for Except

/-! ## Base64 (`BASE64_STANDARD.encode`) -/

def b64Alphabet : Str :=
  "ABCDEFGHIJKLMNOPQRSTUVWXYZabcdefghijklmnopqrstuvwxyz0123456789+/".toList

def b64Char (n : Nat) : Char := b64Alphabet.getD n 'A'

/-- Standard base64 with `=` padding over raw bytes. -/
def base64Encode : List Nat → Str
  | [] => []
  | [a] => [b64Char (a / 4), b64Char (a % 4 * 16), '=', '=']
  | [a, b] => [b64Char (a / 4), b64Char (a % 4 * 16 + b / 16), b64Char (b % 16 * 4), '=']
  | a :: b :: c :: rest =>
      b64Char (a / 4) :: b64Char (a % 4 * 16 + b / 16) ::
      b64Char (b % 16 * 4 + c / 64) :: b64Char (c % 64) :: base64Encode rest

/-! ## UTF-8 validity (`std::str::from_utf8`) -/

/-- Is `b` a UTF-8 continuation byte `10xxxxxx`? -/
def contByte (b : Nat) : Bool := 128 ≤ b && b < 192

/-- UTF-8 validity of a byte sequence, following the shortest-form and
surrogate restrictions `std::str::from_utf8` enforces. -/
def validUtf8 : List Nat → Bool
  | [] => true
  | b :: rest =>
    if b < 128 then validUtf8 rest
    else if 194 ≤ b && b ≤ 223 then
      match rest with
      | c1 :: r => contByte c1 && validUtf8 r
      | [] => false
    else if (b = 224 || (225 ≤ b && b ≤ 236) || b = 237 || (238 ≤ b && b ≤ 239)) then
      match rest with
      | c1 :: c2 :: r =>
        (if b = 224 then 160 ≤ c1 && c1 ≤ 191
         else if b = 237 then 128 ≤ c1 && c1 ≤ 159
         else contByte c1) && contByte c2 && validUtf8 r
      | _ => false
    else if (b = 240 || (241 ≤ b && b ≤ 243) || b = 244) then
      match rest with
      | c1 :: c2 :: c3 :: r =>
        (if b = 240 then 144 ≤ c1 && c1 ≤ 191
         else if b = 244 then 128 ≤ c1 && c1 ≤ 143
         else contByte c1) && contByte c2 && contByte c3 && validUtf8 r
      | _ => false
    else false

/-! ## Edit application (`apply_edits`) -/

/-- `edits.len() - 1` computed on `usize`: the subtraction wraps, so for
an empty vector the loop bound becomes `2 ^ 64 - 1`. -/
def lenPred (n : Nat) : Nat := if n = 0 then 2 ^ 64 - 1 else n - 1

/-- The check loop `for i in 0..bound { if edits[i].end_byte >
edits[i + 1].start_byte { return Err("edits are not disjoint") } }`;
an out-of-range index access is the panic the program would raise.
`fuel` is the number of remaining iterations, `i` the current index. -/
def disjointCheck (edits : List Edit) : Nat → Nat → Except BundleError Unit
  | 0, _ => .ok ()
  | fuel + 1, i =>
    match edits[i]?, edits[i + 1]? with
    | some a, some b =>
      if a.end_byte > b.start_byte then .error .editsNotDisjoint
      else disjointCheck edits fuel (i + 1)
    | _, _ => .error .panicIndexOutOfBounds

/-- `String::replace_range(a..b, c)`. -/
def replace_range (s : Str) (a b : Nat) (c : Str) : Str :=
  s.take a ++ c ++ s.drop b

/-- `(x as isize + offset) as usize`: a cast back to `usize` reduces
modulo `2 ^ 64`. -/
def intToUsize (x : Int) : Nat := (x % (2 ^ 64 : Int)).toNat

/-- The application loop of `apply_edits`: replace each range translated
by the running signed offset, then update the offset by the signed size
difference of the edit. -/
def apply_edits_loop (source : Str) (off : Int) : List Edit → Str
  | [] => source
  | e :: rest =>
    apply_edits_loop
      (replace_range source (intToUsize ((e.start_byte : Int) + off))
        (intToUsize ((e.end_byte : Int) + off)) e.new_content)
      (off + (e.new_content.length : Int) - ((e.end_byte : Int) - (e.start_byte : Int)))
      rest

/-- `apply_edits`: stable-sort by `start_byte` (`Vec::sort_by_key` is a
stable sort; `List.insertionSort` by the same key is also stable, and any
two stable sorts by the same key agree), run the disjointness-check loop,
then apply left-to-right with a running signed offset. -/
def apply_edits (source : Str) (edits : List Edit) : Except BundleError Str :=
  let sorted := edits.insertionSort (fun a b => a.start_byte ≤ b.start_byte)
  match disjointCheck sorted (lenPred sorted.length) 0 with
  | .error e => .error e
  | .ok _ => .ok (apply_edits_loop source 0 sorted)

/-! ## The bundler -/

/-- The exact text of the inline-build marker comment. -/
def markerText : Str := "# build: inline".toList

/-- Extraction of the `source`/`.` argument from `node.child(1)`:
a `word` is used verbatim, a `string` with its first and last byte (the
quote characters) stripped, anything else is unusable. -/
def source_argument (source : Str) (n : STNode) : Option Str :=
  match n.children[1]? with
  | none => none
  | some a =>
    if a.kind = "word" then some (textOf source a)
    else if a.kind = "string" then some ((textOf source a).drop 1).dropLast
    else none

/-- The interpreter-selector case of the directive recognizer: a comment
node whose text starts with `#!`.  Validation order as in the source:
duplicate-in-file, then row-0, then conflict with the saved run-wide
shabang; on success the shabang is recorded and an edit is queued removing
the span from the node's start byte to the start byte of its next sibling
(or the node's own end byte when it has none). -/
def comment_case (source : Str) (n : STNode) (ctx : Ctx) (st : Bundler) (found : Bool)
    (edits : List Edit) : Except BundleError (Bundler × Bool × List Edit) :=
  if ("#!".toList).isPrefixOf (textOf source n) then
    if found then .error .shabangDuplicate
    else if n.row ≠ 0 then .error .shabangMisplaced
    else
      match st.shabang with
      | some saved =>
        if saved ≠ textOf source n then .error (.shabangConflict saved (textOf source n))
        else .ok (st, true, edits ++
          [⟨n.start_byte, ((ctx.next).map STNode.start_byte).getD n.end_byte, []⟩])
      | none => .ok ({ st with shabang := some (textOf source n) }, true, edits ++
          [⟨n.start_byte, ((ctx.next).map STNode.start_byte).getD n.end_byte, []⟩])
  else .ok (st, found, edits)

/-- The include-directive case of the recognizer: a command whose first
child reads `source` or `.`.  `inc` is the recursive resolution of the
target path (`_bundle_from_path` at the call site); it is invoked only
after the already-`visited` check and the `strip_prefix` against the
bundle root, in source order. -/
def command_case (env : Env) (inc : Str → Bundler → Except BundleError (Bundler × Str))
    (source cwd : Str) (n : STNode) (st : Bundler) (found : Bool) (edits : List Edit) :
    Except BundleError (Bundler × Bool × List Edit) :=
  match n.children.head? with
  | none => .ok (st, found, edits)
  | some name_node =>
    if textOf source name_node = "source".toList ∨ textOf source name_node = ".".toList then
      match source_argument source n with
      | none => .error .sourceMissingArgument
      | some path_str =>
        match env.canonical cwd path_str with
        | none => .error (.pathResolutionFailure path_str)
        | some path =>
          if path ∈ st.visited then
            .ok (st, found, edits ++ [⟨n.start_byte, n.end_byte, []⟩])
          else
            match env.rel st.path_relative_to path with
            | none => .error (.outsideRoot path_str)
            | some relPath =>
              match inc path st with
              | .error e => .error e
              | .ok (st', inner) =>
                .ok (st', found, edits ++ [⟨n.start_byte, n.end_byte,
                  "# source ".toList ++ relPath ++ "\n\n".toList ++ inner ++
                  "\n\n".toList ++ "#########".toList⟩])
    else .ok (st, found, edits)

/-- The inline-build case of the recognizer: a command-substitution node
whose next named sibling (or, when absent, the parent's next named
sibling) is the comment `# build: inline`. -/
def substitution_case (env : Env) (source : Str) (n : STNode) (ctx : Ctx) (st : Bundler)
    (found : Bool) (edits : List Edit) : Except BundleError (Bundler × Bool × List Edit) :=
  match ctx.nextNamed.or ctx.parentNextNamed with
  | none => .ok (st, found, edits)
  | some sib =>
    if sib.kind = "comment" ∧ textOf source sib = markerText then
      match env.run (((textOf source n).drop 2).dropLast) with
      | none => .error .spawnFailure
      | some output =>
        if output.success = false then
          .error (.subcommandFailed (((textOf source n).drop 2).dropLast) output.code)
        else if output.stderr ≠ [] ∧ validUtf8 output.stderr = false then
          .error .stderrNotUtf8
        else
          .ok (st, found, edits ++
            [⟨n.start_byte, n.end_byte,
              "$(echo '".toList ++ base64Encode output.stdout ++ "' | base64 -d)".toList⟩,
             ⟨sib.start_byte, sib.end_byte, []⟩])
    else .ok (st, found, edits)

mutual

/-- `Bundler::_bundle_from_path`: cycle check against `visiting`, push,
read the file, bundle its text with the file's directory as context,
pop `visiting`, record the path in `visited`. -/
def bundle_from_path (env : Env) (fuel : Nat) (path : Str) (st : Bundler) :
    Except BundleError (Bundler × Str) :=
  if path ∈ st.visiting then .error .circularDependency
  else
    match env.readFile path with
    | none => .error .readFailure
    | some source =>
      match env.parentDir path with
      | none => .error .cannotSourceRoot
      | some cwd =>
        match bundle_from_string env fuel source cwd
            { st with visiting := st.visiting ++ [path] } with
        | .error e => .error e
        | .ok (st2, out) =>
          .ok ({ st2 with visiting := st2.visiting.dropLast,
                          visited := path :: st2.visited }, out)
termination_by (fuel, 3, 0)

/-- `Bundler::_bundle_from_string`: parse, visit every node collecting
edits, require that this document declared a shabang, apply the edits. -/
def bundle_from_string (env : Env) (fuel : Nat) (source cwd : Str) (st : Bundler) :
    Except BundleError (Bundler × Str) :=
  match env.parse source with
  | none => .error .parseFailure
  | some root =>
    match visit_node env fuel source cwd root ⟨none, none, none⟩ st false [] with
    | .error e => .error e
    | .ok (st', found, edits) =>
      if found then
        match apply_edits source edits with
        | .error e => .error e
        | .ok out => .ok (st', out)
      else .error .shabangRequired
termination_by (fuel, 2, 0)

/-- One step of the pre-order traversal `visit_node`: run the directive
recognizer on `n`, then descend into its children. -/
def visit_node (env : Env) (fuel : Nat) (source cwd : Str) (n : STNode) (ctx : Ctx)
    (st : Bundler) (found : Bool) (edits : List Edit) :
    Except BundleError (Bundler × Bool × List Edit) :=
  match handle_node env fuel source cwd n ctx st found edits with
  | .error e => .error e
  | .ok (st', found', edits') =>
    visit_list env fuel source cwd n.children ctx.nextNamed st' found' edits'
termination_by (fuel, 1, sizeOf n)
decreasing_by
  all_goals first
    | decreasing_tactic
    | (apply Prod.Lex.right
       apply Prod.Lex.right
       cases n
       simp [STNode.children])

/-- Visit a sibling list left to right, supplying each node's sibling
context; `pnn` is the parent's next named sibling. -/
def visit_list (env : Env) (fuel : Nat) (source cwd : Str) (cs : List STNode)
    (pnn : Option STNode) (st : Bundler) (found : Bool) (edits : List Edit) :
    Except BundleError (Bundler × Bool × List Edit) :=
  match cs with
  | [] => .ok (st, found, edits)
  | c :: rest =>
    match visit_node env fuel source cwd c ⟨rest.head?, firstNamed rest, pnn⟩ st found edits with
    | .error e => .error e
    | .ok (st', found', edits') =>
      visit_list env fuel source cwd rest pnn st' found' edits'
termination_by (fuel, 1, sizeOf cs)

/-- The directive recognizer: the three-case dispatch on `node.kind()`
inside the closure passed to `visit_node` in `_bundle_from_string`.  The
include case performs the recursive `_bundle_from_path` call, spending one
unit of fuel. -/
def handle_node (env : Env) (fuel : Nat) (source cwd : Str) (n : STNode) (ctx : Ctx)
    (st : Bundler) (found : Bool) (edits : List Edit) :
    Except BundleError (Bundler × Bool × List Edit) :=
  if n.kind = "comment" then comment_case source n ctx st found edits
  else if n.kind = "command" then
    command_case env
      (fun path st' =>
        match fuel with
        | 0 => .error .outOfFuel
        | fuel' + 1 => bundle_from_path env fuel' path st')
      source cwd n st found edits
  else if n.kind = "command_substitution" then
    substitution_case env source n ctx st found edits
  else .ok (st, found, edits)
termination_by (fuel, 0, 0)

end

/-- `Bundler::bundle`: run the text entry point on a fresh run state,
require that a shabang was recorded, and emit
`shabang ++ "\n\n" ++ body`. -/
def bundle (env : Env) (fuel : Nat) (root_dir : Str) (source : Str) (cwd : Str) :
    Except BundleError Str :=
  match bundle_from_string env fuel source cwd ⟨root_dir, none, [], []⟩ with
  | .error e => .error e
  | .ok (st, out) =>
    match st.shabang with
    | none => .error .shabangMissing
    | some shabang => .ok (shabang ++ "\n\n".toList ++ out)

/-! ## Node classification predicates -/

/-- A comment whose text begins with `#!`. -/
def isShabangComment (source : Str) (n : STNode) : Bool :=
  n.kind = "comment" && ("#!".toList).isPrefixOf (textOf source n)

/-- A command whose first child reads `source` or `.`. -/
def isSourceCommand (source : Str) (n : STNode) : Bool :=
  n.kind = "command" &&
    (match n.children.head? with
     | some c => textOf source c = "source".toList || textOf source c = ".".toList
     | none => false)

/-- A comment whose text is exactly `# build: inline`. -/
def isMarkerComment (source : Str) (n : STNode) : Bool :=
  n.kind = "comment" && textOf source n = markerText

/-- An option of nodes none of which is the inline-build marker comment. -/
def ctxSafe (source : Str) (o : Option STNode) : Prop :=
  ∀ s, o = some s → isMarkerComment source s = false

/-- The inertness condition on a set of nodes: no shabang comment, no
include command, no inline-build marker. -/
def InertForest (source : Str) (ns : List STNode) : Prop :=
  ∀ m ∈ ns, isShabangComment source m = false ∧
    isSourceCommand source m = false ∧ isMarkerComment source m = false

/-! ## Run-state invariants of successful bundling steps -/

/-- Facts every successful bundler step preserves about the run state:
the root directory is never changed, the `visiting` stack is restored,
and a recorded shabang is never discarded. -/
def StInv (st st' : Bundler) : Prop :=
  st'.path_relative_to = st.path_relative_to ∧
  st'.visiting = st.visiting ∧
  (st.shabang.isSome = true → st'.shabang.isSome = true)

/-- Facts about one successful visiting step: run-state invariants, edits
are only appended, `found` is monotone, flipping `found` appends at least
one edit, a set `found` flag witnesses a recorded shabang, and `found`
cannot change while visiting nodes without a shabang comment (`noSh`). -/
def VisitInv (noSh : Prop) (st : Bundler) (found : Bool) (edits : List Edit)
    (st' : Bundler) (found' : Bool) (edits' : List Edit) : Prop :=
  StInv st st' ∧
  (∃ t, edits' = edits ++ t) ∧
  (found = true → found' = true) ∧
  (found' = true → found = true ∨ edits' ≠ edits) ∧
  ((found = true → st.shabang.isSome = true) → found' = true → st'.shabang.isSome = true) ∧
  (noSh → found' = found)

/-! ## Analysis of `apply_edits` -/

/-- Some adjacent pair of the list overlaps: the earlier edit's end byte
exceeds the later edit's start byte. -/
def adjOverlap : List Edit → Bool
  | a :: b :: r => decide (a.end_byte > b.start_byte) || adjOverlap (b :: r)
  | _ => false

/-! ## Concrete fixtures

Small scripts with the syntax trees tree-sitter-bash produces for them
(comments and whitespace are "extras" in the bash grammar: comments appear
as named nodes, whitespace produces no node). -/

/-- Shorthand for string literals as character lists. -/
def lc (s : String) : Str := s.toList

/-- `b.sh`: a selector line and one command. -/
def bSrc : Str := lc "#!/bin/sh\necho b\n"

def bTree : STNode :=
  .mk "program" true 0 17 0
    [ .mk "comment" true 0 9 0 [],
      .mk "command" true 10 16 1
        [ .mk "command_name" true 10 14 1 [.mk "word" true 10 14 1 []],
          .mk "word" true 15 16 1 [] ] ]

/-- The top document of the dedup scenario: sources `b.sh` twice. -/
def topSrc : Str := lc "#!/bin/sh\nsource b.sh\nsource b.sh\n"

def topTree : STNode :=
  .mk "program" true 0 34 0
    [ .mk "comment" true 0 9 0 [],
      .mk "command" true 10 21 1
        [ .mk "command_name" true 10 16 1 [.mk "word" true 10 16 1 []],
          .mk "word" true 17 21 1 [] ],
      .mk "command" true 22 33 2
        [ .mk "command_name" true 22 28 2 [.mk "word" true 22 28 2 []],
          .mk "word" true 29 33 2 [] ] ]

/-- A document with no selector of its own that sources `b.sh`. -/
def noSelSrc : Str := lc "source b.sh\n"

def noSelTree : STNode :=
  .mk "program" true 0 12 0
    [ .mk "command" true 0 11 0
        [ .mk "command_name" true 0 6 0 [.mk "word" true 0 6 0 []],
          .mk "word" true 7 11 0 [] ] ]

/-- `a.sh` sources itself. -/
def aSrc : Str := lc "#!/bin/sh\nsource a.sh\n"

def aTree : STNode :=
  .mk "program" true 0 22 0
    [ .mk "comment" true 0 9 0 [],
      .mk "command" true 10 21 1
        [ .mk "command_name" true 10 16 1 [.mk "word" true 10 16 1 []],
          .mk "word" true 17 21 1 [] ] ]

/-- An inline-build pair: the substitution is the last token of the
assignment, so the marker comment is found through the parent's next
named sibling. -/
def subSrc : Str := lc "#!/bin/sh\nA=$(printf 'hi') # build: inline\n"

def subTree : STNode :=
  .mk "program" true 0 43 0
    [ .mk "comment" true 0 9 0 [],
      .mk "variable_assignment" true 10 26 1
        [ .mk "variable_name" true 10 11 1 [],
          .mk "=" false 11 12 1 [],
          .mk "command_substitution" true 12 26 1
            [ .mk "$(" false 12 14 1 [],
              .mk "command" true 14 25 1
                [ .mk "command_name" true 14 20 1 [.mk "word" true 14 20 1 []],
                  .mk "word" true 21 25 1 [] ],
              .mk ")" false 25 26 1 [] ] ],
      .mk "comment" true 27 42 1 [] ]

/-- A no-directive document with a blank line between the selector and
the body: the next sibling starts two bytes after the selector node. -/
def gapSrc : Str := lc "#!/bin/sh\n\necho c\n"

def gapTree : STNode :=
  .mk "program" true 0 18 0
    [ .mk "comment" true 0 9 0 [],
      .mk "command" true 11 17 2
        [ .mk "command_name" true 11 15 2 [.mk "word" true 11 15 2 []],
          .mk "word" true 16 17 2 [] ] ]

/-- The oracle assembly for all fixture runs. -/
def demoEnv : Env :=
  { parse := fun s =>
      if s = topSrc then some topTree
      else if s = bSrc then some bTree
      else if s = noSelSrc then some noSelTree
      else if s = aSrc then some aTree
      else if s = subSrc then some subTree
      else if s = gapSrc then some gapTree
      else none
    readFile := fun p =>
      if p = lc "/r/b.sh" then some bSrc
      else if p = lc "/r/a.sh" then some aSrc
      else none
    parentDir := fun p =>
      if p = lc "/r/b.sh" ∨ p = lc "/r/a.sh" then some (lc "/r") else none
    canonical := fun cwd p =>
      if cwd = lc "/r" ∧ p = lc "b.sh" then some (lc "/r/b.sh")
      else if cwd = lc "/r" ∧ p = lc "a.sh" then some (lc "/r/a.sh")
      else none
    rel := fun root p =>
      if root = lc "/r" ∧ p = lc "/r/b.sh" then some (lc "b.sh")
      else if root = lc "/r" ∧ p = lc "/r/a.sh" then some (lc "a.sh")
      else none
    run := fun c =>
      if c = lc "printf 'hi'" then some ⟨true, 0, [104, 105], []⟩ else none }

/-- Same world, but the executed command emits the invalid UTF-8 byte
`0xFF` on stderr. -/
def stderrEnv : Env :=
  { demoEnv with
    run := fun c =>
      if c = lc "printf 'hi'" then some ⟨true, 0, [104, 105], [255]⟩ else none }

/-- Same world, but the executed command fails with exit code 3. -/
def failEnv : Env :=
  { demoEnv with
    run := fun c =>
      if c = lc "printf 'hi'" then some ⟨false, 3, [], []⟩ else none }

/-- The include resolution performed at a `source` directive: one unit of
fuel pays for the recursive `_bundle_from_path` call. -/
def include_resolver (env : Env) (fuel : Nat) (path : Str) (st : Bundler) :
    Except BundleError (Bundler × Str) :=
  match fuel with
  | 0 => .error .outOfFuel
  | fuel' + 1 => bundle_from_path env fuel' path st

/-- The continuation of `_bundle_from_string` after a successful parse:
visit the tree from the root, require the shabang, apply the edits. -/
def after_parse (env : Env) (fuel : Nat) (source cwd : Str) (st : Bundler)
    (root : STNode) : Except BundleError (Bundler × Str) :=
  match visit_node env fuel source cwd root ⟨none, none, none⟩ st false [] with
  | .error e => .error e
  | .ok (st', found, edits) =>
    if found then
      match apply_edits source edits with
      | .error e => .error e
      | .ok out => .ok (st', out)
    else .error .shabangRequired

/-- The tail of the post-parse continuation after the traversal result is
known: require the shabang flag, apply the edits. -/
def finish (source : Str) (st' : Bundler) (found : Bool) (edits : List Edit) :
    Except BundleError (Bundler × Str) :=
  if found then
    match apply_edits source edits with
    | .error e => .error e
    | .ok out => .ok (st', out)
  else .error .shabangRequired

def st0 : Bundler := ⟨lc "/r", none, [], []⟩

def st1 : Bundler := ⟨lc "/r", some (lc "#!/bin/sh"), [], []⟩

def st2 : Bundler := ⟨lc "/r", some (lc "#!/bin/sh"), [], [lc "/r/b.sh"]⟩

def cmt : STNode := .mk "comment" true 0 9 0 []

def cn1 : STNode := .mk "command_name" true 10 16 1 [.mk "word" true 10 16 1 []]

def w1 : STNode := .mk "word" true 17 21 1 []

def cmd1 : STNode := .mk "command" true 10 21 1 [cn1, w1]

def cn2 : STNode := .mk "command_name" true 22 28 2 [.mk "word" true 22 28 2 []]

def w2 : STNode := .mk "word" true 29 33 2 []

def cmd2 : STNode := .mk "command" true 22 33 2 [cn2, w2]

def e1 : Edit := ⟨0, 10, []⟩

def e2 : Edit := ⟨10, 21, lc "# source b.sh\n\necho b\n\n\n#########"⟩

def e3 : Edit := ⟨22, 33, []⟩

def outTop : Str := lc "# source b.sh\n\necho b\n\n\n#########\n\n"

def ncn : STNode := .mk "command_name" true 0 6 0 [.mk "word" true 0 6 0 []]

def nw : STNode := .mk "word" true 7 11 0 []

def ncmd : STNode := .mk "command" true 0 11 0 [ncn, nw]

def en : Edit := ⟨0, 11, lc "# source b.sh\n\necho b\n\n\n#########"⟩

def stA : Bundler := ⟨lc "/r", none, [lc "/r/a.sh"], []⟩

def stA1 : Bundler := ⟨lc "/r", some (lc "#!/bin/sh"), [lc "/r/a.sh"], []⟩

def vnm : STNode := .mk "variable_name" true 10 11 1 []

def eqs : STNode := .mk "=" false 11 12 1 []

def icn : STNode := .mk "command_name" true 14 20 1 [.mk "word" true 14 20 1 []]

def iw : STNode := .mk "word" true 21 25 1 []

def icmd : STNode := .mk "command" true 14 25 1 [icn, iw]

def opn : STNode := .mk "$(" false 12 14 1 []

def cpn : STNode := .mk ")" false 25 26 1 []

def csub : STNode := .mk "command_substitution" true 12 26 1 [opn, icmd, cpn]

def va : STNode := .mk "variable_assignment" true 10 26 1 [vnm, eqs, csub]

def mkcmt : STNode := .mk "comment" true 27 42 1 []

def esub : Edit := ⟨12, 26, lc "$(echo 'aGk=' | base64 -d)"⟩

def emk : Edit := ⟨27, 42, []⟩

def outSub : Str := lc "A=$(echo 'aGk=' | base64 -d) \n"

/-- The spec's words for C2: the body is the source with the selector
line and its trailing newline removed. -/
def selectorLineRemoved (source : Str) (n : STNode) : Str :=
  source.take n.start_byte ++ source.drop (n.end_byte + 1)

def bcn : STNode := .mk "command_name" true 10 14 1 [.mk "word" true 10 14 1 []]

def bw : STNode := .mk "word" true 15 16 1 []

def bcmd : STNode := .mk "command" true 10 16 1 [bcn, bw]

def gcn : STNode := .mk "command_name" true 11 15 2 [.mk "word" true 11 15 2 []]

def gw : STNode := .mk "word" true 16 17 2 []

def gcmd : STNode := .mk "command" true 11 17 2 [gcn, gw]

def ia : Edit := ⟨1, 1, lc "a"⟩

def ib : Edit := ⟨1, 1, lc "b"⟩

/-! ## Basic structural lemmas -/

theorem STNode.nodes_eq (n : STNode) : n.nodes = n :: forestNodes n.children := by
  cases n; rfl

theorem STNode.self_mem_nodes (n : STNode) : n ∈ n.nodes := by
  rw [STNode.nodes_eq]; exact List.mem_cons_self _ _

theorem mem_nodes_of_mem_children {m : STNode} {n : STNode}
    (h : m ∈ forestNodes n.children) : m ∈ n.nodes := by
  rw [STNode.nodes_eq]; exact List.mem_cons_of_mem _ h

theorem forestNodes_cons (c : STNode) (rest : List STNode) :
    forestNodes (c :: rest) = c.nodes ++ forestNodes rest := rfl

theorem forestNodes_append (l₁ l₂ : List STNode) :
    forestNodes (l₁ ++ l₂) = forestNodes l₁ ++ forestNodes l₂ := by
  induction l₁ with
  | nil => rfl
  | cons c rest ih => simp [forestNodes_cons, ih]

theorem mem_forestNodes_of_mem {a : STNode} {cs : List STNode} (h : a ∈ cs) :
    a ∈ forestNodes cs := by
  induction cs with
  | nil => cases h
  | cons c rest ih =>
    rw [forestNodes_cons]
    rcases List.mem_cons.mp h with h | h
    · subst h; exact List.mem_append_left _ (STNode.self_mem_nodes _)
    · exact List.mem_append_right _ (ih h)

theorem firstNamed_mem {cs : List STNode} {s : STNode} (h : firstNamed cs = some s) :
    s ∈ cs := by
  induction cs with
  | nil => simp [firstNamed] at h
  | cons c rest ih =>
    rw [firstNamed] at h
    by_cases hn : c.named = true
    · simp [hn] at h; subst h; exact List.mem_cons_self _ _
    · simp [hn] at h; exact List.mem_cons_of_mem _ (ih h)

/-- A `#!` comment is never the `# build: inline` marker: the marker's
second character is a space, not `!`. -/
theorem shabang_not_marker {source : Str} {n : STNode}
    (h : isShabangComment source n = true) : isMarkerComment source n = false := by
  unfold isShabangComment at h
  have hp : ("#!".toList).isPrefixOf (textOf source n) = true :=
    (Bool.and_eq_true _ _ |>.mp h).2
  unfold isMarkerComment
  by_cases hm : textOf source n = markerText
  · rw [hm] at hp
    exact absurd hp (by decide)
  · simp [hm]

/-! ## Inert nodes: the traversal leaves state untouched on any subtree
that contains no shabang comment, no `source`/`.` command, and no
inline-build marker comment (the last condition, together with marker-free
sibling context, neutralizes `command_substitution` nodes). -/

theorem comment_case_inert (source : Str) (n : STNode) (ctx : Ctx) (st : Bundler)
    (found : Bool) (edits : List Edit)
    (h : ("#!".toList).isPrefixOf (textOf source n) = false) :
    comment_case source n ctx st found edits = .ok (st, found, edits) := by
  unfold comment_case
  rw [if_neg (by simp only [h]; decide)]

theorem command_case_inert (env : Env) (inc : Str → Bundler → Except BundleError (Bundler × Str))
    (source cwd : Str) (n : STNode) (st : Bundler) (found : Bool) (edits : List Edit)
    (hname : ∀ c, n.children.head? = some c →
      ¬ textOf source c = "source".toList ∧ ¬ textOf source c = ".".toList) :
    command_case env inc source cwd n st found edits = .ok (st, found, edits) := by
  unfold command_case
  cases hh : n.children.head? with
  | none => simp only [hh]
  | some name_node =>
    simp only [hh]
    rcases hname name_node hh with ⟨h1, h2⟩
    rw [if_neg (not_or.mpr ⟨h1, h2⟩)]

theorem substitution_case_inert (env : Env) (source : Str) (n : STNode) (ctx : Ctx)
    (st : Bundler) (found : Bool) (edits : List Edit)
    (hcs : ∀ s, ctx.nextNamed.or ctx.parentNextNamed = some s →
      isMarkerComment source s = false) :
    substitution_case env source n ctx st found edits = .ok (st, found, edits) := by
  unfold substitution_case
  cases ho : ctx.nextNamed.or ctx.parentNextNamed with
  | none => simp only [ho]
  | some sib =>
    have hns := hcs sib ho
    unfold isMarkerComment at hns
    simp only [Bool.and_eq_false_iff, decide_eq_false_iff_not] at hns
    simp only [ho]
    rcases hns with h | h
    · rw [if_neg (by simp [h])]
    · rw [if_neg (by simp [h])]

theorem handle_node_inert (env : Env) (fuel : Nat) (source cwd : Str) (n : STNode)
    (ctx : Ctx) (st : Bundler) (found : Bool) (edits : List Edit)
    (hsh : isShabangComment source n = false)
    (hsrc : isSourceCommand source n = false)
    (hcs : n.kind = "command_substitution" →
      ∀ s, ctx.nextNamed.or ctx.parentNextNamed = some s → isMarkerComment source s = false) :
    handle_node env fuel source cwd n ctx st found edits = .ok (st, found, edits) := by
  rw [handle_node]
  by_cases hk : n.kind = "comment"
  · rw [if_pos hk]
    apply comment_case_inert
    unfold isShabangComment at hsh
    simp [hk] at hsh
    simp [hsh]
  · by_cases hk2 : n.kind = "command"
    · rw [if_neg hk, if_pos hk2]
      apply command_case_inert
      intro c hc
      unfold isSourceCommand at hsrc
      rw [hk2, hc] at hsrc
      simpa using hsrc
    · by_cases hk3 : n.kind = "command_substitution"
      · rw [if_neg hk, if_neg hk2, if_pos hk3]
        exact substitution_case_inert _ _ _ _ _ _ _ (hcs hk3)
      · rw [if_neg hk, if_neg hk2, if_neg hk3]

theorem visit_inert_aux (env : Env) (fuel : Nat) (source cwd : Str) :
    ∀ K : Nat,
      (∀ (n : STNode) (ctx : Ctx) (st : Bundler) (found : Bool) (edits : List Edit),
        sizeOf n ≤ K → InertForest source n.nodes →
        ((ctxSafe source ctx.nextNamed ∧ ctxSafe source ctx.parentNextNamed) ∨
          (∀ m ∈ n.nodes, ¬ m.kind = "command_substitution")) →
        visit_node env fuel source cwd n ctx st found edits = .ok (st, found, edits)) ∧
      (∀ (cs : List STNode) (pnn : Option STNode) (st : Bundler) (found : Bool)
          (edits : List Edit),
        sizeOf cs ≤ K → InertForest source (forestNodes cs) →
        (ctxSafe source pnn ∨ (∀ m ∈ forestNodes cs, ¬ m.kind = "command_substitution")) →
        visit_list env fuel source cwd cs pnn st found edits = .ok (st, found, edits)) := by
  intro K
  induction K using Nat.strong_induction_on with
  | _ K ih =>
    constructor
    · intro n ctx st found edits hK hf hctx
      have hside : n.kind = "command_substitution" →
          ∀ s, ctx.nextNamed.or ctx.parentNextNamed = some s →
            isMarkerComment source s = false := by
        intro hk s hs
        rcases hctx with ⟨c1, c2⟩ | hno
        · cases ho1 : ctx.nextNamed with
          | some x =>
            rw [ho1] at hs
            simp only [Option.or] at hs
            exact c1 s (by rw [ho1, hs])
          | none =>
            rw [ho1] at hs
            simp only [Option.or] at hs
            exact c2 s hs
        · exact absurd hk (hno n n.self_mem_nodes)
      rw [visit_node]
      rw [handle_node_inert env fuel source cwd n ctx st found edits
        (hf n n.self_mem_nodes).1 (hf n n.self_mem_nodes).2.1 hside]
      have hlt : sizeOf n.children < K := by
        have : sizeOf n.children < sizeOf n := by
          cases n; simp [STNode.children]
        omega
      exact (ih (sizeOf n.children) hlt).2 n.children ctx.nextNamed st found edits le_rfl
        (fun m hm => hf m (mem_nodes_of_mem_children hm))
        (by
          rcases hctx with ⟨c1, _⟩ | hno
          · exact Or.inl c1
          · exact Or.inr (fun m hm => hno m (mem_nodes_of_mem_children hm)))
    · intro cs pnn st found edits hK hf hctx
      cases cs with
      | nil => rw [visit_list]
      | cons c rest =>
        rw [visit_list]
        have hsc : sizeOf c < K := by
          have : sizeOf c < sizeOf (c :: rest) := by
            simp only [List.cons.sizeOf_spec]; omega
          omega
        have hsr : sizeOf rest < K := by
          have : sizeOf rest < sizeOf (c :: rest) := by
            simp only [List.cons.sizeOf_spec]; omega
          omega
        have hfc : InertForest source c.nodes := fun m hm =>
          hf m (by rw [forestNodes_cons]; exact List.mem_append_left _ hm)
        have hfr : InertForest source (forestNodes rest) := fun m hm =>
          hf m (by rw [forestNodes_cons]; exact List.mem_append_right _ hm)
        rw [(ih (sizeOf c) hsc).1 c ⟨rest.head?, firstNamed rest, pnn⟩ st found edits le_rfl hfc
          (by
            rcases hctx with hp | hno
            · refine Or.inl ⟨?_, hp⟩
              intro s hs
              have hmem : s ∈ forestNodes (c :: rest) :=
                (by
                  rw [forestNodes_cons]
                  exact List.mem_append_right _
                    (mem_forestNodes_of_mem (firstNamed_mem hs)))
              exact (hf s hmem).2.2
            · exact Or.inr (fun m hm => hno m
                (by rw [forestNodes_cons]; exact List.mem_append_left _ hm)))]
        exact (ih (sizeOf rest) hsr).2 rest pnn st found edits le_rfl hfr
          (by
            rcases hctx with hp | hno
            · exact Or.inl hp
            · exact Or.inr (fun m hm => hno m
                (by rw [forestNodes_cons]; exact List.mem_append_right _ hm)))

/-- A subtree that contains no shabang comment, no include command and no
marker comment is inert: visiting it returns the state unchanged.  The
sibling context must also be marker-free (or the subtree must contain no
command substitution at all). -/
theorem visit_node_inert (env : Env) (fuel : Nat) (source cwd : Str) (n : STNode) (ctx : Ctx)
    (st : Bundler) (found : Bool) (edits : List Edit)
    (hf : InertForest source n.nodes)
    (hctx : (ctxSafe source ctx.nextNamed ∧ ctxSafe source ctx.parentNextNamed) ∨
      (∀ m ∈ n.nodes, ¬ m.kind = "command_substitution")) :
    visit_node env fuel source cwd n ctx st found edits = .ok (st, found, edits) :=
  (visit_inert_aux env fuel source cwd (sizeOf n)).1 n ctx st found edits le_rfl hf hctx

/-- Forest version of `visit_node_inert`. -/
theorem visit_list_inert (env : Env) (fuel : Nat) (source cwd : Str) (cs : List STNode)
    (pnn : Option STNode) (st : Bundler) (found : Bool) (edits : List Edit)
    (hf : InertForest source (forestNodes cs))
    (hctx : ctxSafe source pnn ∨ (∀ m ∈ forestNodes cs, ¬ m.kind = "command_substitution")) :
    visit_list env fuel source cwd cs pnn st found edits = .ok (st, found, edits) :=
  (visit_inert_aux env fuel source cwd (sizeOf cs)).2 cs pnn st found edits le_rfl hf hctx

theorem StInv_refl (st : Bundler) : StInv st st := ⟨rfl, rfl, id⟩

theorem StInv_trans {a b c : Bundler} (h1 : StInv a b) (h2 : StInv b c) : StInv a c :=
  ⟨h2.1.trans h1.1, h2.2.1.trans h1.2.1, fun h => h2.2.2 (h1.2.2 h)⟩

theorem VisitInv_refl (noSh : Prop) (st : Bundler) (found : Bool) (edits : List Edit) :
    VisitInv noSh st found edits st found edits :=
  ⟨StInv_refl st, ⟨[], (List.append_nil edits).symm⟩, id, fun h => Or.inl h,
    fun h hf => h hf, fun _ => rfl⟩

theorem VisitInv_trans {P Q R : Prop} {st st₁ st' : Bundler} {f f₁ f' : Bool}
    {e e₁ e' : List Edit}
    (h1 : VisitInv P st f e st₁ f₁ e₁) (h2 : VisitInv Q st₁ f₁ e₁ st' f' e')
    (hP : R → P) (hQ : R → Q) : VisitInv R st f e st' f' e' := by
  obtain ⟨s1, ⟨t₁, ht₁⟩, m1, fl1, l1, n1⟩ := h1
  obtain ⟨s2, ⟨t₂, ht₂⟩, m2, fl2, l2, n2⟩ := h2
  refine ⟨StInv_trans s1 s2, ⟨t₁ ++ t₂, by rw [ht₂, ht₁, List.append_assoc]⟩, fun h => m2 (m1 h),
    ?_, fun h hf => l2 (fun hf₁ => l1 h hf₁) hf, fun hr => (n2 (hQ hr)).trans (n1 (hP hr))⟩
  intro hf'
  rcases fl2 hf' with hf₁ | hne
  · rcases fl1 hf₁ with hf | hne
    · exact Or.inl hf
    · refine Or.inr ?_
      intro heq
      apply hne
      rw [ht₂, ht₁] at heq
      have : t₁ ++ t₂ = [] := by
        have hl := congrArg List.length heq
        simp only [List.length_append] at hl
        have : t₁.length = 0 ∧ t₂.length = 0 := by omega
        simp [List.length_eq_zero.mp this.1, List.length_eq_zero.mp this.2]
      have ht1nil : t₁ = [] := by
        cases t₁ with
        | nil => rfl
        | cons a l => simp at this
      rw [ht₁, ht1nil, List.append_nil]
  · refine Or.inr ?_
    intro heq
    apply hne
    rw [ht₂, ht₁] at heq
    have hl := congrArg List.length heq
    simp only [List.length_append] at hl
    have h1' : t₁.length = 0 ∧ t₂.length = 0 := by omega
    rw [ht₂, ht₁, List.length_eq_zero.mp h1'.1, List.length_eq_zero.mp h1'.2]
    simp

theorem comment_case_inv {source : Str} {n : STNode} {ctx : Ctx} {st : Bundler}
    {found : Bool} {edits : List Edit} {st' : Bundler} {found' : Bool} {edits' : List Edit}
    (h : comment_case source n ctx st found edits = .ok (st', found', edits')) :
    VisitInv (("#!".toList).isPrefixOf (textOf source n) = false)
      st found edits st' found' edits' := by
  unfold comment_case at h
  split at h
  case isFalse hp =>
    simp only [Except.ok.injEq, Prod.mk.injEq] at h
    obtain ⟨h1, h2, h3⟩ := h
    subst h1; subst h2; subst h3
    exact VisitInv_refl _ _ _ _
  case isTrue hp =>
    split at h
    case isTrue => exact absurd h (by simp)
    case isFalse hfound =>
      have hfound' : found = false := by
        cases found
        · rfl
        · exact absurd rfl hfound
      split at h
      case isTrue => exact absurd h (by simp)
      case isFalse hrow =>
        split at h
        case h_1 saved hsv =>
          split at h
          case isTrue => exact absurd h (by simp)
          case isFalse hne =>
            simp only [Except.ok.injEq, Prod.mk.injEq] at h
            obtain ⟨h1, h2, h3⟩ := h
            subst h1; subst h2; subst h3
            refine ⟨StInv_refl st, ⟨_, rfl⟩, fun hq => rfl, fun _ => Or.inr (by simp),
              fun _ _ => by rw [hsv]; rfl,
              fun hnos => absurd (hp.symm.trans hnos) (by decide)⟩
        case h_2 hsv =>
          simp only [Except.ok.injEq, Prod.mk.injEq] at h
          obtain ⟨h1, h2, h3⟩ := h
          subst h1; subst h2; subst h3
          refine ⟨⟨rfl, rfl, fun _ => rfl⟩, ⟨_, rfl⟩, fun hq => rfl,
            fun _ => Or.inr (by simp), fun _ _ => rfl,
            fun hnos => absurd (hp.symm.trans hnos) (by decide)⟩

theorem command_case_inv {env : Env} {inc : Str → Bundler → Except BundleError (Bundler × Str)}
    {source cwd : Str} {n : STNode} {st : Bundler} {found : Bool} {edits : List Edit}
    {st' : Bundler} {found' : Bool} {edits' : List Edit}
    (hinc : ∀ path st₁ st₂ out, inc path st₁ = .ok (st₂, out) → StInv st₁ st₂)
    (h : command_case env inc source cwd n st found edits = .ok (st', found', edits')) :
    StInv st st' ∧ (∃ t, edits' = edits ++ t) ∧ found' = found := by
  unfold command_case at h
  split at h
  case h_1 =>
    simp only [Except.ok.injEq, Prod.mk.injEq] at h
    obtain ⟨h1, h2, h3⟩ := h
    subst h1; subst h2; subst h3
    exact ⟨StInv_refl st, ⟨[], by simp⟩, rfl⟩
  case h_2 name_node hh =>
    split at h
    case isFalse =>
      simp only [Except.ok.injEq, Prod.mk.injEq] at h
      obtain ⟨h1, h2, h3⟩ := h
      subst h1; subst h2; subst h3
      exact ⟨StInv_refl st, ⟨[], by simp⟩, rfl⟩
    case isTrue =>
      split at h
      case h_1 => exact absurd h (by simp)
      case h_2 path_str harg =>
        split at h
        case h_1 => exact absurd h (by simp)
        case h_2 path hcan =>
          split at h
          case isTrue =>
            simp only [Except.ok.injEq, Prod.mk.injEq] at h
            obtain ⟨h1, h2, h3⟩ := h
            subst h1; subst h2; subst h3
            exact ⟨StInv_refl st, ⟨_, rfl⟩, rfl⟩
          case isFalse =>
            split at h
            case h_1 => exact absurd h (by simp)
            case h_2 relPath hrel =>
              split at h
              case h_1 => exact absurd h (by simp)
              case h_2 st₂ inner hrec =>
                simp only [Except.ok.injEq, Prod.mk.injEq] at h
                obtain ⟨h1, h2, h3⟩ := h
                subst h1; subst h2; subst h3
                exact ⟨hinc path st _ inner hrec, ⟨_, rfl⟩, rfl⟩

theorem substitution_case_inv {env : Env} {source : Str} {n : STNode} {ctx : Ctx}
    {st : Bundler} {found : Bool} {edits : List Edit} {st' : Bundler} {found' : Bool}
    {edits' : List Edit}
    (h : substitution_case env source n ctx st found edits = .ok (st', found', edits')) :
    st' = st ∧ (∃ t, edits' = edits ++ t) ∧ found' = found := by
  unfold substitution_case at h
  split at h
  case h_1 =>
    simp only [Except.ok.injEq, Prod.mk.injEq] at h
    obtain ⟨h1, h2, h3⟩ := h
    subst h1; subst h2; subst h3
    exact ⟨rfl, ⟨[], by simp⟩, rfl⟩
  case h_2 sib hsib =>
    split at h
    case isFalse =>
      simp only [Except.ok.injEq, Prod.mk.injEq] at h
      obtain ⟨h1, h2, h3⟩ := h
      subst h1; subst h2; subst h3
      exact ⟨rfl, ⟨[], by simp⟩, rfl⟩
    case isTrue =>
      split at h
      case h_1 => exact absurd h (by simp)
      case h_2 output hrun =>
        split at h
        case isTrue => exact absurd h (by simp)
        case isFalse =>
          split at h
          case isTrue => exact absurd h (by simp)
          case isFalse =>
            simp only [Except.ok.injEq, Prod.mk.injEq] at h
            obtain ⟨h1, h2, h3⟩ := h
            subst h1; subst h2; subst h3
            exact ⟨rfl, ⟨_, rfl⟩, rfl⟩

/-- A step that keeps `found` unchanged satisfies the visit invariant. -/
theorem VisitInv_of_steady {noSh : Prop} {st st' : Bundler} {found : Bool}
    {edits edits' : List Edit} (hst : StInv st st') (he : ∃ t, edits' = edits ++ t) :
    VisitInv noSh st found edits st' found edits' :=
  ⟨hst, he, id, fun h => Or.inl h, fun hl hf => hst.2.2 (hl hf), fun _ => rfl⟩

theorem handle_node_inv {env : Env} {fuel : Nat} {source cwd : Str} {n : STNode} {ctx : Ctx}
    {st : Bundler} {found : Bool} {edits : List Edit} {st' : Bundler} {found' : Bool}
    {edits' : List Edit}
    (hpath : ∀ fuel' path st₁ st₂ out, fuel = fuel' + 1 →
      bundle_from_path env fuel' path st₁ = .ok (st₂, out) → StInv st₁ st₂)
    (h : handle_node env fuel source cwd n ctx st found edits = .ok (st', found', edits')) :
    VisitInv (isShabangComment source n = false) st found edits st' found' edits' := by
  rw [handle_node] at h
  split at h
  case isTrue hk =>
    have hc := comment_case_inv h
    refine ⟨hc.1, hc.2.1, hc.2.2.1, hc.2.2.2.1, hc.2.2.2.2.1,
      fun hnos => hc.2.2.2.2.2 ?_⟩
    unfold isShabangComment at hnos
    simpa [hk] using hnos
  case isFalse hk =>
    split at h
    case isTrue hk2 =>
      have hinc : ∀ path st₁ st₂ out,
          (fun path st₁ =>
            match fuel with
            | 0 => Except.error BundleError.outOfFuel
            | fuel' + 1 => bundle_from_path env fuel' path st₁) path st₁ = .ok (st₂, out) →
          StInv st₁ st₂ := by
        intro path st₁ st₂ out hok
        cases fuel with
        | zero => exact absurd hok (by simp)
        | succ fuel' => exact hpath fuel' path st₁ st₂ out rfl hok
      have hc := command_case_inv hinc h
      rw [hc.2.2]
      exact VisitInv_of_steady hc.1 hc.2.1
    case isFalse hk2 =>
      split at h
      case isTrue hk3 =>
        have hc := substitution_case_inv h
        rw [hc.1, hc.2.2]
        exact VisitInv_of_steady (StInv_refl st) hc.2.1
      case isFalse hk3 =>
        simp only [Except.ok.injEq, Prod.mk.injEq] at h
        obtain ⟨h1, h2, h3⟩ := h
        subst h1; subst h2; subst h3
        exact VisitInv_refl _ _ _ _

/-- The run-state invariants, proved for all four mutually recursive
bundler functions at once by strong induction on the fuel. -/
theorem bundler_invariants (env : Env) :
    ∀ fuel : Nat,
      (∀ path st st' out, bundle_from_path env fuel path st = .ok (st', out) →
        StInv st st' ∧ path ∈ st'.visited ∧ st'.shabang.isSome = true) ∧
      (∀ source cwd st st' out, bundle_from_string env fuel source cwd st = .ok (st', out) →
        StInv st st' ∧ st'.shabang.isSome = true) ∧
      (∀ source cwd (n : STNode) ctx st found edits st' found' edits',
        visit_node env fuel source cwd n ctx st found edits = .ok (st', found', edits') →
        VisitInv (∀ m ∈ n.nodes, isShabangComment source m = false)
          st found edits st' found' edits') ∧
      (∀ source cwd (cs : List STNode) pnn st found edits st' found' edits',
        visit_list env fuel source cwd cs pnn st found edits = .ok (st', found', edits') →
        VisitInv (∀ m ∈ forestNodes cs, isShabangComment source m = false)
          st found edits st' found' edits') := by
  intro fuel
  induction fuel using Nat.strong_induction_on with
  | _ fuel ihf =>
    have hpath' : ∀ fuel' path st₁ st₂ out, fuel = fuel' + 1 →
        bundle_from_path env fuel' path st₁ = .ok (st₂, out) → StInv st₁ st₂ := by
      intro fuel' path st₁ st₂ out hf hok
      exact ((ihf fuel' (by omega)).1 path st₁ st₂ out hok).1
    have hvisit : ∀ K : Nat,
        (∀ source cwd (n : STNode) ctx st found edits st' found' edits', sizeOf n ≤ K →
          visit_node env fuel source cwd n ctx st found edits = .ok (st', found', edits') →
          VisitInv (∀ m ∈ n.nodes, isShabangComment source m = false)
            st found edits st' found' edits') ∧
        (∀ source cwd (cs : List STNode) pnn st found edits st' found' edits', sizeOf cs ≤ K →
          visit_list env fuel source cwd cs pnn st found edits = .ok (st', found', edits') →
          VisitInv (∀ m ∈ forestNodes cs, isShabangComment source m = false)
            st found edits st' found' edits') := by
      intro K
      induction K using Nat.strong_induction_on with
      | _ K ihk =>
        constructor
        · intro source cwd n ctx st found edits st' found' edits' hK h
          rw [visit_node] at h
          split at h
          case h_1 => exact absurd h (by simp)
          case h_2 st₁ found₁ edits₁ hh =>
            have hlt : sizeOf n.children < K := by
              have : sizeOf n.children < sizeOf n := by
                cases n; simp [STNode.children]
              omega
            exact VisitInv_trans (handle_node_inv hpath' hh)
              ((ihk (sizeOf n.children) hlt).2 source cwd n.children ctx.nextNamed
                st₁ found₁ edits₁ st' found' edits' le_rfl h)
              (fun hr => hr n n.self_mem_nodes)
              (fun hr m hm => hr m (mem_nodes_of_mem_children hm))
        · intro source cwd cs pnn st found edits st' found' edits' hK h
          cases cs with
          | nil =>
            rw [visit_list] at h
            simp only [Except.ok.injEq, Prod.mk.injEq] at h
            obtain ⟨h1, h2, h3⟩ := h
            subst h1; subst h2; subst h3
            exact VisitInv_refl _ _ _ _
          | cons c rest =>
            rw [visit_list] at h
            split at h
            case h_1 => exact absurd h (by simp)
            case h_2 st₁ found₁ edits₁ hh =>
              have hsc : sizeOf c < K := by
                have : sizeOf c < sizeOf (c :: rest) := by
                  simp only [List.cons.sizeOf_spec]; omega
                omega
              have hsr : sizeOf rest < K := by
                have : sizeOf rest < sizeOf (c :: rest) := by
                  simp only [List.cons.sizeOf_spec]; omega
                omega
              exact VisitInv_trans
                ((ihk (sizeOf c) hsc).1 source cwd c _ st found edits st₁ found₁ edits₁
                  le_rfl hh)
                ((ihk (sizeOf rest) hsr).2 source cwd rest pnn st₁ found₁ edits₁
                  st' found' edits' le_rfl h)
                (fun hr m hm => hr m
                  (by rw [forestNodes_cons]; exact List.mem_append_left _ hm))
                (fun hr m hm => hr m
                  (by rw [forestNodes_cons]; exact List.mem_append_right _ hm))
    have hstring : ∀ source cwd st st' out,
        bundle_from_string env fuel source cwd st = .ok (st', out) →
        StInv st st' ∧ st'.shabang.isSome = true := by
      intro source cwd st st' out h
      rw [bundle_from_string] at h
      split at h
      case h_1 => exact absurd h (by simp)
      case h_2 root hroot =>
        split at h
        case h_1 => exact absurd h (by simp)
        case h_2 st₁ found₁ edits₁ hv =>
          split at h
          case isFalse => exact absurd h (by simp)
          case isTrue hfound =>
            split at h
            case h_1 => exact absurd h (by simp)
            case h_2 outText happ =>
              simp only [Except.ok.injEq, Prod.mk.injEq] at h
              obtain ⟨h1, h2⟩ := h
              subst h1
              have hi := (hvisit (sizeOf root)).1 source cwd root ⟨none, none, none⟩
                st false [] _ found₁ edits₁ le_rfl hv
              exact ⟨hi.1, hi.2.2.2.2.1 (fun hf => absurd hf (by simp)) hfound⟩
    have hpathTop : ∀ path st st' out, bundle_from_path env fuel path st = .ok (st', out) →
        StInv st st' ∧ path ∈ st'.visited ∧ st'.shabang.isSome = true := by
      intro path st st' out h
      rw [bundle_from_path] at h
      split at h
      case isTrue => exact absurd h (by simp)
      case isFalse hvisiting =>
        split at h
        case h_1 => exact absurd h (by simp)
        case h_2 src hread =>
          split at h
          case h_1 => exact absurd h (by simp)
          case h_2 cwd hparent =>
            split at h
            case h_1 => exact absurd h (by simp)
            case h_2 st₂ out₂ hbs =>
              simp only [Except.ok.injEq, Prod.mk.injEq] at h
              obtain ⟨h1, h2⟩ := h
              subst h1
              have hs := hstring src cwd _ st₂ out₂ hbs
              refine ⟨⟨hs.1.1, ?_, fun _ => hs.2⟩, List.mem_cons_self _ _, hs.2⟩
              have hv : st₂.visiting = st.visiting ++ [path] := hs.1.2.1
              show st₂.visiting.dropLast = st.visiting
              rw [hv, List.dropLast_concat]
    exact ⟨hpathTop, hstring,
      fun source cwd n ctx st found edits st' found' edits' h =>
        (hvisit (sizeOf n)).1 source cwd n ctx st found edits st' found' edits' le_rfl h,
      fun source cwd cs pnn st found edits st' found' edits' h =>
        (hvisit (sizeOf cs)).2 source cwd cs pnn st found edits st' found' edits' le_rfl h⟩

theorem adjOverlap_short {l : List Edit} (h : l.length ≤ 1) : adjOverlap l = false := by
  match l with
  | [] => rfl
  | [a] => rfl
  | a :: b :: r => simp at h

/-- The check loop, started at index `i` with exactly the right number of
remaining iterations, is the adjacent-overlap check on the suffix. -/
theorem disjointCheck_loop_spec (l : List Edit) :
    ∀ (fuel i : Nat), i + fuel + 1 = l.length →
      disjointCheck l fuel i =
        (if adjOverlap (l.drop i) then .error .editsNotDisjoint else .ok ()) := by
  intro fuel
  induction fuel with
  | zero =>
    intro i hi
    have hlen : (l.drop i).length = 1 := by
      rw [List.length_drop]; omega
    rw [disjointCheck, adjOverlap_short (le_of_eq hlen), if_neg (by simp)]
  | succ fuel ih =>
    intro i hi
    have hi1 : i < l.length := by omega
    have hi2 : i + 1 < l.length := by omega
    have hd1 : l.drop i = l[i] :: l.drop (i + 1) := List.drop_eq_getElem_cons hi1
    have hd2 : l.drop (i + 1) = l[i + 1] :: l.drop (i + 2) := List.drop_eq_getElem_cons hi2
    simp only [disjointCheck, List.getElem?_eq_getElem hi1, List.getElem?_eq_getElem hi2]
    rw [hd1, hd2]
    simp only [adjOverlap]
    by_cases hov : l[i].end_byte > l[i + 1].start_byte
    · rw [if_pos hov, if_pos (by simp [hov])]
    · rw [if_neg hov, ih (i + 1) (by omega), hd2]
      simp [hov]

/-- On a nonempty list the check loop runs over every adjacent pair; the
empty list is covered by `disjointCheck_nil`. -/
theorem disjointCheck_spec (l : List Edit) (hne : l ≠ []) :
    disjointCheck l (lenPred l.length) 0 =
      (if adjOverlap l then .error .editsNotDisjoint else .ok ()) := by
  have hlen : l.length ≠ 0 := fun h => hne (List.length_eq_zero.mp h)
  have hlp : lenPred l.length = l.length - 1 := by
    unfold lenPred
    rw [if_neg hlen]
  rw [hlp]
  have := disjointCheck_loop_spec l (l.length - 1) 0 (by omega)
  simpa using this

/-- The empty edit list: the loop bound wraps to `2 ^ 64 - 1` and the very
first index access is out of bounds. -/
theorem disjointCheck_nil : disjointCheck [] (lenPred 0) 0 = .error .panicIndexOutOfBounds := by
  decide

/-- Two sorted lists that are permutations of one another and have
pairwise-distinct start offsets are equal. -/
theorem sorted_eq_of_perm_of_distinct {l₁ l₂ : List Edit}
    (hp : l₁.Perm l₂)
    (hs₁ : List.Sorted (fun a b : Edit => a.start_byte ≤ b.start_byte) l₁)
    (hs₂ : List.Sorted (fun a b : Edit => a.start_byte ≤ b.start_byte) l₂)
    (hd : l₁.Pairwise (fun a b => a.start_byte ≠ b.start_byte)) : l₁ = l₂ := by
  have hd₂ : l₂.Pairwise (fun a b : Edit => a.start_byte ≠ b.start_byte) :=
    (List.Perm.pairwise_iff (fun h => h.symm) hp).mp hd
  have hlt₁ : List.Sorted (fun a b : Edit => a.start_byte < b.start_byte) l₁ :=
    (hs₁.and hd).imp (fun h => lt_of_le_of_ne h.1 h.2)
  have hlt₂ : List.Sorted (fun a b : Edit => a.start_byte < b.start_byte) l₂ :=
    (hs₂.and hd₂).imp (fun h => lt_of_le_of_ne h.1 h.2)
  haveI : IsAntisymm Edit (fun a b => a.start_byte < b.start_byte) :=
    ⟨fun a b h1 h2 => absurd (h1.trans h2) (lt_irrefl _)⟩
  exact List.eq_of_perm_of_sorted hp hlt₁ hlt₂

/-! ## Evaluation lemmas -/

theorem intToUsize_nat {a : Nat} (h : a < 2 ^ 64) : intToUsize (a : Int) = a := by
  unfold intToUsize
  rw [Int.emod_eq_of_lt (Int.natCast_nonneg a) (by exact_mod_cast h)]
  simp

/-- A single in-range edit replaces exactly its range. -/
theorem apply_edits_single (source : Str) (e : Edit)
    (hs : e.start_byte < 2 ^ 64) (he : e.end_byte < 2 ^ 64) :
    apply_edits source [e] =
      .ok (source.take e.start_byte ++ e.new_content ++ source.drop e.end_byte) := by
  show Except.ok (apply_edits_loop source 0 [e]) = _
  rw [apply_edits_loop, apply_edits_loop]
  unfold replace_range
  rw [Int.add_zero, Int.add_zero, intToUsize_nat hs, intToUsize_nat he]

/-- A fresh first-line shabang comment: records the selector and queues
the removal edit. -/
theorem comment_case_fresh (source : Str) (n : STNode) (ctx : Ctx) (st : Bundler)
    (edits : List Edit)
    (hp : ("#!".toList).isPrefixOf (textOf source n) = true)
    (hrow : n.row = 0) (hsh : st.shabang = none) :
    comment_case source n ctx st false edits =
      .ok ({ st with shabang := some (textOf source n) }, true, edits ++
        [⟨n.start_byte, ((ctx.next).map STNode.start_byte).getD n.end_byte, []⟩]) := by
  unfold comment_case
  rw [if_pos hp, if_neg (by simp), if_neg (by simp [hrow]), hsh]

/-- A repeated identical first-line shabang comment: leaves the selector
untouched and queues the removal edit. -/
theorem comment_case_same (source : Str) (n : STNode) (ctx : Ctx) (st : Bundler)
    (edits : List Edit)
    (hp : ("#!".toList).isPrefixOf (textOf source n) = true)
    (hrow : n.row = 0) (hsh : st.shabang = some (textOf source n)) :
    comment_case source n ctx st false edits =
      .ok (st, true, edits ++
        [⟨n.start_byte, ((ctx.next).map STNode.start_byte).getD n.end_byte, []⟩]) := by
  unfold comment_case
  rw [if_pos hp, if_neg (by simp), if_neg (by simp [hrow]), hsh]
  simp

theorem visit_node_eq (env : Env) (fuel : Nat) (source cwd : Str) (n : STNode) (ctx : Ctx)
    (st : Bundler) (found : Bool) (edits : List Edit) :
    visit_node env fuel source cwd n ctx st found edits =
      match handle_node env fuel source cwd n ctx st found edits with
      | .error e => .error e
      | .ok (st', found', edits') =>
        visit_list env fuel source cwd n.children ctx.nextNamed st' found' edits' := by
  rw [visit_node]

theorem visit_list_nil (env : Env) (fuel : Nat) (source cwd : Str) (pnn : Option STNode)
    (st : Bundler) (found : Bool) (edits : List Edit) :
    visit_list env fuel source cwd [] pnn st found edits = .ok (st, found, edits) := by
  rw [visit_list]

theorem visit_list_cons (env : Env) (fuel : Nat) (source cwd : Str) (c : STNode)
    (rest : List STNode) (pnn : Option STNode) (st : Bundler) (found : Bool)
    (edits : List Edit) :
    visit_list env fuel source cwd (c :: rest) pnn st found edits =
      match visit_node env fuel source cwd c ⟨rest.head?, firstNamed rest, pnn⟩
          st found edits with
      | .error e => .error e
      | .ok (st', found', edits') =>
        visit_list env fuel source cwd rest pnn st' found' edits' := by
  rw [visit_list]

theorem handle_node_comment {n : STNode} (hk : n.kind = "comment") (env : Env) (fuel : Nat)
    (source cwd : Str) (ctx : Ctx) (st : Bundler) (found : Bool) (edits : List Edit) :
    handle_node env fuel source cwd n ctx st found edits =
      comment_case source n ctx st found edits := by
  rw [handle_node, if_pos hk]

theorem handle_node_command {n : STNode} (hk : n.kind = "command") (env : Env) (fuel : Nat)
    (source cwd : Str) (ctx : Ctx) (st : Bundler) (found : Bool) (edits : List Edit) :
    handle_node env fuel source cwd n ctx st found edits =
      command_case env (include_resolver env fuel) source cwd n st found edits := by
  rw [handle_node, if_neg (by simp [hk]), if_pos hk]
  cases fuel <;> rfl

theorem handle_node_substitution {n : STNode} (hk : n.kind = "command_substitution")
    (env : Env) (fuel : Nat) (source cwd : Str) (ctx : Ctx) (st : Bundler) (found : Bool)
    (edits : List Edit) :
    handle_node env fuel source cwd n ctx st found edits =
      substitution_case env source n ctx st found edits := by
  rw [handle_node, if_neg (by simp [hk]), if_neg (by simp [hk]), if_pos hk]

set_option maxHeartbeats 4000000 in
/-- Bundling `b.sh` from text, in any run state whose recorded shabang is
absent or already `#!/bin/sh`: records `#!/bin/sh` and produces the body
`echo b\n`. -/
theorem bstring_b_eval (fuel : Nat) (st : Bundler)
    (hsh : st.shabang = none ∨ st.shabang = some (lc "#!/bin/sh")) :
    bundle_from_string demoEnv fuel bSrc (lc "/r") st =
      .ok ({ st with shabang := some (lc "#!/bin/sh") }, lc "echo b\n") := by
  obtain ⟨pr, sh, vg, vd⟩ := st
  rcases hsh with hsh | hsh <;> simp only [] at hsh <;> subst hsh <;>
    simp +decide only [bundle_from_string, demoEnv, topSrc, bSrc, noSelSrc, aSrc, subSrc,
      topTree, bTree, noSelTree, aTree, subTree, visit_node_eq, visit_list_cons,
      visit_list_nil, handle_node, comment_case, command_case, substitution_case,
      source_argument, STNode.kind, STNode.children, STNode.row, STNode.start_byte,
      STNode.end_byte, STNode.named, firstNamed, List.head?, apply_edits, lenPred,
      disjointCheck, apply_edits_loop, replace_range, intToUsize, textOf, lc,
      markerText, List.isPrefixOf, if_true, if_false, Except.ok.injEq, Prod.mk.injEq,
      Bundler.mk.injEq, Option.map, Option.getD]

/-- Resolving `b.sh` by path: pushes and pops `visiting`, records the
file as visited, and returns its bundled body. -/
theorem bpath_b_eval (fuel : Nat) (st : Bundler)
    (hv : lc "/r/b.sh" ∉ st.visiting)
    (hsh : st.shabang = none ∨ st.shabang = some (lc "#!/bin/sh")) :
    bundle_from_path demoEnv fuel (lc "/r/b.sh") st =
      .ok (⟨st.path_relative_to, some (lc "#!/bin/sh"), st.visiting,
        lc "/r/b.sh" :: st.visited⟩, lc "echo b\n") := by
  rw [bundle_from_path, if_neg hv]
  simp only [show demoEnv.readFile (lc "/r/b.sh") = some bSrc from rfl,
    show demoEnv.parentDir (lc "/r/b.sh") = some (lc "/r") from rfl,
    bstring_b_eval fuel { st with visiting := st.visiting ++ [lc "/r/b.sh"] }
      (by cases st; simpa using hsh)]
  cases st
  simp [List.dropLast_concat]

/-- The recognizer ignores nodes of any other kind. -/
theorem handle_node_other {n : STNode} (env : Env) (fuel : Nat) (source cwd : Str)
    (ctx : Ctx) (st : Bundler) (found : Bool) (edits : List Edit)
    (hk1 : ¬ n.kind = "comment") (hk2 : ¬ n.kind = "command")
    (hk3 : ¬ n.kind = "command_substitution") :
    handle_node env fuel source cwd n ctx st found edits = .ok (st, found, edits) := by
  rw [handle_node, if_neg hk1, if_neg hk2, if_neg hk3]

/-- A comment that does not start with `#!` is left untouched. -/
theorem comment_case_not_shabang {source : Str} {n : STNode} (ctx : Ctx) (st : Bundler)
    (found : Bool) (edits : List Edit)
    (hp : ("#!".toList).isPrefixOf (textOf source n) = false) :
    comment_case source n ctx st found edits = .ok (st, found, edits) := by
  unfold comment_case
  simp only [hp, Bool.false_eq_true, if_false]

/-- A second shabang comment in the same document is rejected before the
row and conflict checks. -/
theorem comment_case_dup {source : Str} {n : STNode} (ctx : Ctx) (st : Bundler)
    (edits : List Edit)
    (hp : ("#!".toList).isPrefixOf (textOf source n) = true) :
    comment_case source n ctx st true edits = .error .shabangDuplicate := by
  unfold comment_case
  rw [if_pos hp, if_pos rfl]

/-- A shabang comment off the first row is rejected before the conflict
check. -/
theorem comment_case_misplaced {source : Str} {n : STNode} (ctx : Ctx) (st : Bundler)
    (edits : List Edit)
    (hp : ("#!".toList).isPrefixOf (textOf source n) = true)
    (hrow : n.row ≠ 0) :
    comment_case source n ctx st false edits = .error .shabangMisplaced := by
  unfold comment_case
  rw [if_pos hp, if_neg (by simp), if_pos hrow]

/-- A first-row shabang that differs from the saved run-wide shabang is a
hard error naming both texts. -/
theorem comment_case_conflict {source : Str} {n : STNode} (ctx : Ctx) (st : Bundler)
    (edits : List Edit) (saved : Str)
    (hp : ("#!".toList).isPrefixOf (textOf source n) = true)
    (hrow : n.row = 0)
    (hsh : st.shabang = some saved)
    (hne : saved ≠ textOf source n) :
    comment_case source n ctx st false edits =
      .error (.shabangConflict saved (textOf source n)) := by
  unfold comment_case
  rw [if_pos hp, if_neg (by simp), if_neg (by simp [hrow])]
  simp only [hsh]
  rw [if_pos hne]

/-- A command with no children is not an include directive. -/
theorem command_case_no_child {n : STNode} (env : Env)
    (inc : Str → Bundler → Except BundleError (Bundler × Str))
    (source cwd : Str) (st : Bundler) (found : Bool) (edits : List Edit)
    (h1 : n.children.head? = none) :
    command_case env inc source cwd n st found edits = .ok (st, found, edits) := by
  unfold command_case
  rw [h1]

/-- A command whose first child is neither `source` nor `.` is left
untouched. -/
theorem command_case_not_source {n nn : STNode} (env : Env)
    (inc : Str → Bundler → Except BundleError (Bundler × Str))
    (source cwd : Str) (st : Bundler) (found : Bool) (edits : List Edit)
    (h1 : n.children.head? = some nn)
    (h2 : ¬ (textOf source nn = "source".toList ∨ textOf source nn = ".".toList)) :
    command_case env inc source cwd n st found edits = .ok (st, found, edits) := by
  unfold command_case
  simp only [h1]
  rw [if_neg h2]

/-- The include directive on a not-yet-visited target: the recursive
resolution result is spliced into the marker/blank/body/blank/separator
replacement of the directive node's span. -/
theorem command_case_source {n nn : STNode} (env : Env)
    (inc : Str → Bundler → Except BundleError (Bundler × Str))
    (source cwd : Str) (st : Bundler) (found : Bool) (edits : List Edit)
    (arg path relPath : Str) (st' : Bundler) (inner : Str)
    (h1 : n.children.head? = some nn)
    (h2 : textOf source nn = "source".toList ∨ textOf source nn = ".".toList)
    (h3 : source_argument source n = some arg)
    (h4 : env.canonical cwd arg = some path)
    (h5 : path ∉ st.visited)
    (h6 : env.rel st.path_relative_to path = some relPath)
    (h7 : inc path st = .ok (st', inner)) :
    command_case env inc source cwd n st found edits =
      .ok (st', found, edits ++ [⟨n.start_byte, n.end_byte,
        "# source ".toList ++ relPath ++ "\n\n".toList ++ inner ++
          "\n\n".toList ++ "#########".toList⟩]) := by
  unfold command_case
  simp only [h1, h3, h4, h6, h7]
  rw [if_pos h2, if_neg h5]

/-- The include directive on a not-yet-visited target whose recursive
resolution fails propagates the error. -/
theorem command_case_source_err {n nn : STNode} (env : Env)
    (inc : Str → Bundler → Except BundleError (Bundler × Str))
    (source cwd : Str) (st : Bundler) (found : Bool) (edits : List Edit)
    (arg path relPath : Str) (e : BundleError)
    (h1 : n.children.head? = some nn)
    (h2 : textOf source nn = "source".toList ∨ textOf source nn = ".".toList)
    (h3 : source_argument source n = some arg)
    (h4 : env.canonical cwd arg = some path)
    (h5 : path ∉ st.visited)
    (h6 : env.rel st.path_relative_to path = some relPath)
    (h7 : inc path st = .error e) :
    command_case env inc source cwd n st found edits = .error e := by
  unfold command_case
  simp only [h1, h3, h4, h6, h7]
  rw [if_pos h2, if_neg h5]

/-- The include directive on an already-visited target collapses to an
empty replacement of the directive node's span. -/
theorem command_case_visited {n nn : STNode} (env : Env)
    (inc : Str → Bundler → Except BundleError (Bundler × Str))
    (source cwd : Str) (st : Bundler) (found : Bool) (edits : List Edit)
    (arg path : Str)
    (h1 : n.children.head? = some nn)
    (h2 : textOf source nn = "source".toList ∨ textOf source nn = ".".toList)
    (h3 : source_argument source n = some arg)
    (h4 : env.canonical cwd arg = some path)
    (h5 : path ∈ st.visited) :
    command_case env inc source cwd n st found edits =
      .ok (st, found, edits ++ [⟨n.start_byte, n.end_byte, []⟩]) := by
  unfold command_case
  simp only [h1, h3, h4]
  rw [if_pos h2, if_pos h5]

/-- An include target that cannot be expressed relative to the bundle
root is a hard error, raised before the recursive bundling. -/
theorem command_case_outside {n nn : STNode} (env : Env)
    (inc : Str → Bundler → Except BundleError (Bundler × Str))
    (source cwd : Str) (st : Bundler) (found : Bool) (edits : List Edit)
    (arg path : Str)
    (h1 : n.children.head? = some nn)
    (h2 : textOf source nn = "source".toList ∨ textOf source nn = ".".toList)
    (h3 : source_argument source n = some arg)
    (h4 : env.canonical cwd arg = some path)
    (h5 : path ∉ st.visited)
    (h6 : env.rel st.path_relative_to path = none) :
    command_case env inc source cwd n st found edits = .error (.outsideRoot arg) := by
  unfold command_case
  simp only [h1, h3, h4, h6]
  rw [if_pos h2, if_neg h5]

/-- A command substitution with no next named sibling (own or through the
parent) is left untouched. -/
theorem substitution_case_no_sib (env : Env) (source : Str) (n : STNode) (ctx : Ctx)
    (st : Bundler) (found : Bool) (edits : List Edit)
    (hs : ctx.nextNamed.or ctx.parentNextNamed = none) :
    substitution_case env source n ctx st found edits = .ok (st, found, edits) := by
  unfold substitution_case
  rw [hs]

/-- A command substitution whose next relevant sibling is not the exact
marker comment is left untouched: no other trigger spelling is honored. -/
theorem substitution_case_skip {sib : STNode} (env : Env) (source : Str) (n : STNode)
    (ctx : Ctx) (st : Bundler) (found : Bool) (edits : List Edit)
    (hs : ctx.nextNamed.or ctx.parentNextNamed = some sib)
    (hm : ¬ (sib.kind = "comment" ∧ textOf source sib = markerText)) :
    substitution_case env source n ctx st found edits = .ok (st, found, edits) := by
  unfold substitution_case
  simp only [hs]
  rw [if_neg hm]

/-- A triggered inline-build pair whose command succeeds: the stripped
inner command is run, its stdout is base64-encoded into the replacement
of the substitution node, and the marker comment is emptied. -/
theorem substitution_case_run {sib : STNode} {output : ExecResult} (env : Env)
    (source : Str) (n : STNode) (ctx : Ctx) (st : Bundler) (found : Bool)
    (edits : List Edit)
    (hs : ctx.nextNamed.or ctx.parentNextNamed = some sib)
    (hm : sib.kind = "comment" ∧ textOf source sib = markerText)
    (hr : env.run (((textOf source n).drop 2).dropLast) = some output)
    (hok : output.success = true)
    (he : output.stderr = [] ∨ validUtf8 output.stderr = true) :
    substitution_case env source n ctx st found edits =
      .ok (st, found, edits ++
        [⟨n.start_byte, n.end_byte,
          "$(echo '".toList ++ base64Encode output.stdout ++ "' | base64 -d)".toList⟩,
         ⟨sib.start_byte, sib.end_byte, []⟩]) := by
  unfold substitution_case
  simp only [hs, hr]
  rw [if_pos hm, if_neg (by simp [hok]), if_neg (by rcases he with h | h <;> simp [h])]

/-- A triggered inline-build pair whose command exits non-zero: hard
error naming the stripped command text and the exit code. -/
theorem substitution_case_fail {sib : STNode} {output : ExecResult} (env : Env)
    (source : Str) (n : STNode) (ctx : Ctx) (st : Bundler) (found : Bool)
    (edits : List Edit)
    (hs : ctx.nextNamed.or ctx.parentNextNamed = some sib)
    (hm : sib.kind = "comment" ∧ textOf source sib = markerText)
    (hr : env.run (((textOf source n).drop 2).dropLast) = some output)
    (hfail : output.success = false) :
    substitution_case env source n ctx st found edits =
      .error (.subcommandFailed (((textOf source n).drop 2).dropLast) output.code) := by
  unfold substitution_case
  simp only [hs, hr]
  rw [if_pos hm, if_pos hfail]

/-- A triggered inline-build pair whose command succeeds but emits
invalid UTF-8 on stderr: the run aborts. -/
theorem substitution_case_stderr {sib : STNode} {output : ExecResult} (env : Env)
    (source : Str) (n : STNode) (ctx : Ctx) (st : Bundler) (found : Bool)
    (edits : List Edit)
    (hs : ctx.nextNamed.or ctx.parentNextNamed = some sib)
    (hm : sib.kind = "comment" ∧ textOf source sib = markerText)
    (hr : env.run (((textOf source n).drop 2).dropLast) = some output)
    (hok : output.success = true)
    (hne : output.stderr ≠ [])
    (hbad : validUtf8 output.stderr = false) :
    substitution_case env source n ctx st found edits = .error .stderrNotUtf8 := by
  unfold substitution_case
  simp only [hs, hr]
  rw [if_pos hm, if_neg (by simp [hok]), if_pos ⟨hne, hbad⟩]

/-- `_bundle_from_string` on a source the parser accepts runs the
post-parse continuation. -/
theorem bundle_from_string_run {env : Env} {source : Str} {root : STNode}
    (fuel : Nat) (cwd : Str) (st : Bundler)
    (h1 : env.parse source = some root) :
    bundle_from_string env fuel source cwd st = after_parse env fuel source cwd st root := by
  rw [bundle_from_string, h1]
  rfl

/-- A successful traversal reduces the continuation to `finish`. -/
theorem after_parse_visit {env : Env} {fuel : Nat} {source cwd : Str} {st : Bundler}
    {root : STNode} {st' : Bundler} {found : Bool} {edits : List Edit}
    (h : visit_node env fuel source cwd root ⟨none, none, none⟩ st false [] =
      .ok (st', found, edits)) :
    after_parse env fuel source cwd st root = finish source st' found edits := by
  unfold after_parse
  rw [h]
  rfl

/-- A failed traversal propagates its error. -/
theorem after_parse_err {env : Env} {fuel : Nat} {source cwd : Str} {st : Bundler}
    {root : STNode} {e : BundleError}
    (h : visit_node env fuel source cwd root ⟨none, none, none⟩ st false [] = .error e) :
    after_parse env fuel source cwd st root = .error e := by
  unfold after_parse
  rw [h]

/-- `Bundler::bundle` on a run whose text entry point succeeds with a
recorded shabang emits `shabang ++ "\n\n" ++ body`. -/
theorem bundle_ok {env : Env} {fuel : Nat} {root_dir source cwd : Str} {st : Bundler}
    {out sh : Str}
    (h : bundle_from_string env fuel source cwd ⟨root_dir, none, [], []⟩ = .ok (st, out))
    (hsh : st.shabang = some sh) :
    bundle env fuel root_dir source cwd = .ok (sh ++ "\n\n".toList ++ out) := by
  unfold bundle
  rw [h]
  show (match st.shabang with
    | none => (Except.error BundleError.shabangMissing : Except BundleError Str)
    | some shabang => Except.ok (shabang ++ "\n\n".toList ++ out)) = _
  rw [hsh]

/-- `Bundler::bundle` propagates errors of the text entry point. -/
theorem bundle_err {env : Env} {fuel : Nat} {root_dir source cwd : Str} {e : BundleError}
    (h : bundle_from_string env fuel source cwd ⟨root_dir, none, [], []⟩ = .error e) :
    bundle env fuel root_dir source cwd = .error e := by
  unfold bundle
  rw [h]

/-- `finish` when the document declared a shabang. -/
theorem finish_true {source : Str} {st' : Bundler} {edits : List Edit} {out : Str}
    (h : apply_edits source edits = .ok out) :
    finish source st' true edits = .ok (st', out) := by
  unfold finish
  rw [if_pos rfl, h]

/-- `finish` when the document declared no shabang. -/
theorem finish_false {source : Str} {st' : Bundler} {edits : List Edit} :
    finish source st' false edits = .error .shabangRequired := by
  unfold finish
  rw [if_neg (by simp)]

/-- One `visit_node` step from a successful recognizer result. -/
theorem visit_node_step {env : Env} {fuel : Nat} {source cwd : Str} {n : STNode}
    {ctx : Ctx} {st : Bundler} {found : Bool} {edits : List Edit} {st₁ : Bundler}
    {f₁ : Bool} {e₁ : List Edit} {r : Except BundleError (Bundler × Bool × List Edit)}
    (h1 : handle_node env fuel source cwd n ctx st found edits = .ok (st₁, f₁, e₁))
    (h2 : visit_list env fuel source cwd n.children ctx.nextNamed st₁ f₁ e₁ = r) :
    visit_node env fuel source cwd n ctx st found edits = r := by
  rw [visit_node_eq, h1]
  exact h2

/-- `visit_node` propagates a recognizer error. -/
theorem visit_node_step_err {env : Env} {fuel : Nat} {source cwd : Str} {n : STNode}
    {ctx : Ctx} {st : Bundler} {found : Bool} {edits : List Edit} {e : BundleError}
    (h1 : handle_node env fuel source cwd n ctx st found edits = .error e) :
    visit_node env fuel source cwd n ctx st found edits = .error e := by
  rw [visit_node_eq, h1]

/-- One `visit_list` step from a successful head visit. -/
theorem visit_list_step {env : Env} {fuel : Nat} {source cwd : Str} {c : STNode}
    {rest : List STNode} {pnn : Option STNode} {st : Bundler} {found : Bool}
    {edits : List Edit} {st₁ : Bundler} {f₁ : Bool} {e₁ : List Edit}
    {r : Except BundleError (Bundler × Bool × List Edit)}
    (h1 : visit_node env fuel source cwd c ⟨rest.head?, firstNamed rest, pnn⟩
      st found edits = .ok (st₁, f₁, e₁))
    (h2 : visit_list env fuel source cwd rest pnn st₁ f₁ e₁ = r) :
    visit_list env fuel source cwd (c :: rest) pnn st found edits = r := by
  rw [visit_list_cons, h1]
  exact h2

/-- `visit_list` propagates an error of the head visit. -/
theorem visit_list_step_err {env : Env} {fuel : Nat} {source cwd : Str} {c : STNode}
    {rest : List STNode} {pnn : Option STNode} {st : Bundler} {found : Bool}
    {edits : List Edit} {e : BundleError}
    (h1 : visit_node env fuel source cwd c ⟨rest.head?, firstNamed rest, pnn⟩
      st found edits = .error e) :
    visit_list env fuel source cwd (c :: rest) pnn st found edits = .error e := by
  rw [visit_list_cons, h1]

/-- The cycle check of `_bundle_from_path` fires before any filesystem
access: a path already on the `visiting` stack is rejected for every
environment, in particular for ones whose `readFile` would fail. -/
theorem bundle_from_path_cycle {env : Env} {fuel : Nat} {path : Str} {st : Bundler}
    (h : path ∈ st.visiting) :
    bundle_from_path env fuel path st = .error .circularDependency := by
  rw [bundle_from_path, if_pos h]

/-- A successful `_bundle_from_path` run: push, read, bundle, pop,
record as visited. -/
theorem bundle_from_path_ok {env : Env} {fuel : Nat} {path : Str} {st : Bundler}
    {src cwd : Str} {st₂ : Bundler} {out : Str}
    (hv : path ∉ st.visiting)
    (hr : env.readFile path = some src)
    (hp : env.parentDir path = some cwd)
    (h : bundle_from_string env fuel src cwd
      { st with visiting := st.visiting ++ [path] } = .ok (st₂, out)) :
    bundle_from_path env fuel path st =
      .ok ({ st₂ with
          visiting := st₂.visiting.dropLast,
          visited := path :: st₂.visited }, out) := by
  rw [bundle_from_path, if_neg hv]
  simp only [hr, hp, h]

/-- `_bundle_from_path` propagates errors of the text entry point. -/
theorem bundle_from_path_err {env : Env} {fuel : Nat} {path : Str} {st : Bundler}
    {src cwd : Str} {e : BundleError}
    (hv : path ∉ st.visiting)
    (hr : env.readFile path = some src)
    (hp : env.parentDir path = some cwd)
    (h : bundle_from_string env fuel src cwd
      { st with visiting := st.visiting ++ [path] } = .error e) :
    bundle_from_path env fuel path st = .error e := by
  rw [bundle_from_path, if_neg hv]
  simp only [hr, hp, h]

theorem include_b (fuel : Nat) {st : Bundler} (hv : lc "/r/b.sh" ∉ st.visiting)
    (hsh : st.shabang = none ∨ st.shabang = some (lc "#!/bin/sh")) :
    include_resolver demoEnv (fuel + 1) (lc "/r/b.sh") st =
      .ok (⟨st.path_relative_to, some (lc "#!/bin/sh"), st.visiting,
        lc "/r/b.sh" :: st.visited⟩, lc "echo b\n") := by
  show bundle_from_path demoEnv fuel (lc "/r/b.sh") st = _
  exact bpath_b_eval fuel st hv hsh

theorem top_cmt (fuel : Nat) :
    visit_node demoEnv fuel topSrc (lc "/r") cmt ⟨some cmd1, some cmd1, none⟩
      st0 false [] = .ok (st1, true, [e1]) := by
  rw [visit_node_eq, handle_node_comment (show cmt.kind = "comment" from rfl),
    comment_case_fresh topSrc cmt ⟨some cmd1, some cmd1, none⟩ st0 [] (by decide) rfl rfl]
  exact visit_list_nil demoEnv fuel topSrc (lc "/r") (some cmd1) st1 true [e1]

theorem top_cmd1 (fuel : Nat) :
    visit_node demoEnv (fuel + 1) topSrc (lc "/r") cmd1 ⟨some cmd2, some cmd2, none⟩
      st1 true [e1] = .ok (st2, true, [e1, e2]) := by
  rw [visit_node_eq, handle_node_command (show cmd1.kind = "command" from rfl),
    command_case_source demoEnv (include_resolver demoEnv (fuel + 1)) topSrc (lc "/r")
      st1 true [e1] (lc "b.sh") (lc "/r/b.sh") (lc "b.sh") st2 (lc "echo b\n")
      (show cmd1.children.head? = some cn1 from rfl) (Or.inl (by decide)) (by decide)
      rfl (by decide) rfl (include_b fuel (by decide) (Or.inr rfl))]
  exact visit_list_inert demoEnv (fuel + 1) topSrc (lc "/r") cmd1.children (some cmd2)
    st2 true [e1, e2] (by unfold InertForest; decide) (Or.inr (by decide))

theorem top_cmd2 (fuel : Nat) :
    visit_node demoEnv fuel topSrc (lc "/r") cmd2 ⟨none, none, none⟩ st2 true [e1, e2] =
      .ok (st2, true, [e1, e2, e3]) := by
  rw [visit_node_eq, handle_node_command (show cmd2.kind = "command" from rfl),
    command_case_visited demoEnv (include_resolver demoEnv fuel) topSrc (lc "/r")
      st2 true [e1, e2] (lc "b.sh") (lc "/r/b.sh")
      (show cmd2.children.head? = some cn2 from rfl) (Or.inl (by decide)) (by decide)
      rfl (by decide)]
  exact visit_list_inert demoEnv fuel topSrc (lc "/r") cmd2.children none
    st2 true [e1, e2, e3] (by unfold InertForest; decide) (Or.inr (by decide))

theorem top_list (fuel : Nat) :
    visit_list demoEnv (fuel + 1) topSrc (lc "/r") [cmt, cmd1, cmd2] none st0 false [] =
      .ok (st2, true, [e1, e2, e3]) := by
  rw [visit_list_cons,
    show [cmd1, cmd2].head? = some cmd1 from rfl,
    show firstNamed [cmd1, cmd2] = some cmd1 from rfl,
    top_cmt (fuel + 1)]
  show visit_list demoEnv (fuel + 1) topSrc (lc "/r") [cmd1, cmd2] none st1 true [e1] = _
  rw [visit_list_cons,
    show [cmd2].head? = some cmd2 from rfl,
    show firstNamed [cmd2] = some cmd2 from rfl,
    top_cmd1 fuel]
  show visit_list demoEnv (fuel + 1) topSrc (lc "/r") [cmd2] none st2 true [e1, e2] = _
  rw [visit_list_cons,
    show ([] : List STNode).head? = none from rfl,
    show firstNamed [] = none from rfl,
    top_cmd2 (fuel + 1)]
  show visit_list demoEnv (fuel + 1) topSrc (lc "/r") [] none st2 true [e1, e2, e3] = _
  exact visit_list_nil demoEnv (fuel + 1) topSrc (lc "/r") none st2 true [e1, e2, e3]

theorem top_root (fuel : Nat) :
    visit_node demoEnv (fuel + 1) topSrc (lc "/r") topTree ⟨none, none, none⟩
      st0 false [] = .ok (st2, true, [e1, e2, e3]) := by
  rw [visit_node_eq,
    handle_node_other demoEnv (fuel + 1) topSrc (lc "/r") ⟨none, none, none⟩ st0 false []
      (by decide) (by decide) (by decide)]
  show visit_list demoEnv (fuel + 1) topSrc (lc "/r") [cmt, cmd1, cmd2] none st0 false [] = _
  exact top_list fuel

theorem top_string (fuel : Nat) :
    bundle_from_string demoEnv (fuel + 1) topSrc (lc "/r") st0 = .ok (st2, outTop) := by
  rw [bundle_from_string_run (fuel + 1) (lc "/r") st0
    (show demoEnv.parse topSrc = some topTree from rfl),
    after_parse_visit (top_root fuel)]
  decide

theorem top_bundle (fuel : Nat) :
    bundle demoEnv (fuel + 1) (lc "/r") topSrc (lc "/r") =
      .ok (lc "#!/bin/sh\n\n# source b.sh\n\necho b\n\n\n#########\n\n") := by
  rw [bundle_ok (top_string fuel) (show st2.shabang = some (lc "#!/bin/sh") from rfl)]
  decide

theorem nosel_cmd (fuel : Nat) :
    visit_node demoEnv (fuel + 1) noSelSrc (lc "/r") ncmd ⟨none, none, none⟩
      st0 false [] = .ok (st2, false, [en]) := by
  have h1 : handle_node demoEnv (fuel + 1) noSelSrc (lc "/r") ncmd ⟨none, none, none⟩
      st0 false [] = .ok (st2, false, [en]) := by
    rw [handle_node_command (show ncmd.kind = "command" from rfl),
      command_case_source demoEnv (include_resolver demoEnv (fuel + 1)) noSelSrc (lc "/r")
        st0 false [] (lc "b.sh") (lc "/r/b.sh") (lc "b.sh") st2 (lc "echo b\n")
        (show ncmd.children.head? = some ncn from rfl) (Or.inl (by decide)) (by decide)
        rfl (by decide) rfl (include_b fuel (by decide) (Or.inl rfl))]
    decide
  exact visit_node_step h1 (visit_list_inert demoEnv (fuel + 1) noSelSrc (lc "/r")
    ncmd.children none st2 false [en] (by unfold InertForest; decide) (Or.inr (by decide)))

theorem nosel_root (fuel : Nat) :
    visit_node demoEnv (fuel + 1) noSelSrc (lc "/r") noSelTree ⟨none, none, none⟩
      st0 false [] = .ok (st2, false, [en]) := by
  have h2 : visit_list demoEnv (fuel + 1) noSelSrc (lc "/r") [ncmd] none st0 false [] =
      .ok (st2, false, [en]) :=
    visit_list_step (nosel_cmd fuel)
      (visit_list_nil demoEnv (fuel + 1) noSelSrc (lc "/r") none st2 false [en])
  exact visit_node_step
    (handle_node_other _ _ _ _ _ _ _ _ (by decide) (by decide) (by decide)) h2

theorem nosel_string (fuel : Nat) :
    bundle_from_string demoEnv (fuel + 1) noSelSrc (lc "/r") st0 =
      .error .shabangRequired := by
  rw [bundle_from_string_run (fuel + 1) (lc "/r") st0
    (show demoEnv.parse noSelSrc = some noSelTree from rfl),
    after_parse_visit (nosel_root fuel)]
  exact finish_false

theorem nosel_bundle (fuel : Nat) :
    bundle demoEnv (fuel + 1) (lc "/r") noSelSrc (lc "/r") = .error .shabangRequired :=
  bundle_err (nosel_string fuel)

theorem a_cmt (fuel : Nat) :
    visit_node demoEnv fuel aSrc (lc "/r") cmt ⟨some cmd1, some cmd1, none⟩
      stA false [] = .ok (stA1, true, [e1]) := by
  have h1 : handle_node demoEnv fuel aSrc (lc "/r") cmt ⟨some cmd1, some cmd1, none⟩
      stA false [] = .ok (stA1, true, [e1]) := by
    rw [handle_node_comment (show cmt.kind = "comment" from rfl),
      comment_case_fresh aSrc cmt ⟨some cmd1, some cmd1, none⟩ stA [] (by decide) rfl rfl]
    decide
  exact visit_node_step h1 (visit_list_nil demoEnv fuel aSrc (lc "/r") (some cmd1)
    stA1 true [e1])

theorem a_cmd (fuel : Nat) :
    visit_node demoEnv (fuel + 1) aSrc (lc "/r") cmd1 ⟨none, none, none⟩
      stA1 true [e1] = .error .circularDependency := by
  refine visit_node_step_err ?_
  rw [handle_node_command (show cmd1.kind = "command" from rfl)]
  exact command_case_source_err demoEnv (include_resolver demoEnv (fuel + 1)) aSrc (lc "/r")
    stA1 true [e1] (lc "a.sh") (lc "/r/a.sh") (lc "a.sh") .circularDependency
    (show cmd1.children.head? = some cn1 from rfl) (Or.inl (by decide)) (by decide)
    rfl (by decide) rfl
    (show bundle_from_path demoEnv fuel (lc "/r/a.sh") stA1 = _ from
      bundle_from_path_cycle (by decide))

theorem a_list (fuel : Nat) :
    visit_list demoEnv (fuel + 1) aSrc (lc "/r") [cmt, cmd1] none stA false [] =
      .error .circularDependency := by
  exact visit_list_step (a_cmt (fuel + 1)) (visit_list_step_err (a_cmd fuel))

theorem a_root (fuel : Nat) :
    visit_node demoEnv (fuel + 1) aSrc (lc "/r") aTree ⟨none, none, none⟩ stA false [] =
      .error .circularDependency := by
  exact visit_node_step
    (handle_node_other _ _ _ _ _ _ _ _ (by decide) (by decide) (by decide)) (a_list fuel)

theorem a_string (fuel : Nat) :
    bundle_from_string demoEnv (fuel + 1) aSrc (lc "/r") stA = .error .circularDependency := by
  rw [bundle_from_string_run (fuel + 1) (lc "/r") stA
    (show demoEnv.parse aSrc = some aTree from rfl)]
  exact after_parse_err (a_root fuel)

theorem a_path (fuel : Nat) :
    bundle_from_path demoEnv (fuel + 1) (lc "/r/a.sh") st0 = .error .circularDependency :=
  bundle_from_path_err (by decide) rfl rfl (a_string fuel)

theorem s_cmt (env : Env) (fuel : Nat) :
    visit_node env fuel subSrc (lc "/r") cmt ⟨some va, some va, none⟩ st0 false [] =
      .ok (st1, true, [e1]) := by
  have h1 : handle_node env fuel subSrc (lc "/r") cmt ⟨some va, some va, none⟩
      st0 false [] = .ok (st1, true, [e1]) := by
    rw [handle_node_comment (show cmt.kind = "comment" from rfl),
      comment_case_fresh subSrc cmt ⟨some va, some va, none⟩ st0 [] (by decide) rfl rfl]
    decide
  exact visit_node_step h1 (visit_list_nil env fuel subSrc (lc "/r") (some va) st1 true [e1])

theorem s_vnm (env : Env) (fuel : Nat) :
    visit_node env fuel subSrc (lc "/r") vnm ⟨some eqs, some csub, some mkcmt⟩
      st1 true [e1] = .ok (st1, true, [e1]) :=
  visit_node_step
    (handle_node_other _ _ _ _ _ _ _ _ (by decide) (by decide) (by decide))
    (visit_list_nil env fuel subSrc (lc "/r") (some csub) st1 true [e1])

theorem s_eqs (env : Env) (fuel : Nat) :
    visit_node env fuel subSrc (lc "/r") eqs ⟨some csub, some csub, some mkcmt⟩
      st1 true [e1] = .ok (st1, true, [e1]) :=
  visit_node_step
    (handle_node_other _ _ _ _ _ _ _ _ (by decide) (by decide) (by decide))
    (visit_list_nil env fuel subSrc (lc "/r") (some csub) st1 true [e1])

theorem s_mk (env : Env) (fuel : Nat) (es : List Edit) :
    visit_node env fuel subSrc (lc "/r") mkcmt ⟨none, none, none⟩ st1 true es =
      .ok (st1, true, es) := by
  have h1 : handle_node env fuel subSrc (lc "/r") mkcmt ⟨none, none, none⟩ st1 true es =
      .ok (st1, true, es) := by
    rw [handle_node_comment (show mkcmt.kind = "comment" from rfl)]
    exact comment_case_not_shabang _ _ _ _ (by decide)
  exact visit_node_step h1 (visit_list_nil env fuel subSrc (lc "/r") none st1 true es)

theorem s_csub_demo (fuel : Nat) :
    visit_node demoEnv fuel subSrc (lc "/r") csub ⟨none, none, some mkcmt⟩
      st1 true [e1] = .ok (st1, true, [e1, esub, emk]) := by
  have h1 : handle_node demoEnv fuel subSrc (lc "/r") csub ⟨none, none, some mkcmt⟩
      st1 true [e1] = .ok (st1, true, [e1, esub, emk]) := by
    rw [handle_node_substitution (show csub.kind = "command_substitution" from rfl),
      substitution_case_run demoEnv subSrc csub ⟨none, none, some mkcmt⟩ st1 true [e1]
        rfl (by decide) rfl rfl (Or.inl rfl)]
    decide
  exact visit_node_step h1 (visit_list_inert demoEnv fuel subSrc (lc "/r") csub.children
    none st1 true [e1, esub, emk] (by unfold InertForest; decide) (Or.inr (by decide)))

theorem s_csub_stderr (fuel : Nat) :
    visit_node stderrEnv fuel subSrc (lc "/r") csub ⟨none, none, some mkcmt⟩
      st1 true [e1] = .error .stderrNotUtf8 := by
  refine visit_node_step_err ?_
  rw [handle_node_substitution (show csub.kind = "command_substitution" from rfl),
    substitution_case_stderr stderrEnv subSrc csub ⟨none, none, some mkcmt⟩ st1 true [e1]
      rfl (by decide) rfl rfl (by decide) rfl]

theorem s_csub_fail (fuel : Nat) :
    visit_node failEnv fuel subSrc (lc "/r") csub ⟨none, none, some mkcmt⟩
      st1 true [e1] = .error (.subcommandFailed (lc "printf 'hi'") 3) := by
  refine visit_node_step_err ?_
  rw [handle_node_substitution (show csub.kind = "command_substitution" from rfl),
    substitution_case_fail failEnv subSrc csub ⟨none, none, some mkcmt⟩ st1 true [e1]
      rfl (by decide) rfl rfl]
  decide

theorem s_va_ok (env : Env) (fuel : Nat) (es : List Edit)
    (h : visit_node env fuel subSrc (lc "/r") csub ⟨none, none, some mkcmt⟩
      st1 true [e1] = .ok (st1, true, es)) :
    visit_node env fuel subSrc (lc "/r") va ⟨some mkcmt, some mkcmt, none⟩
      st1 true [e1] = .ok (st1, true, es) :=
  visit_node_step
    (handle_node_other _ _ _ _ _ _ _ _ (by decide) (by decide) (by decide))
    (visit_list_step (s_vnm env fuel)
      (visit_list_step (s_eqs env fuel)
        (visit_list_step h
          (visit_list_nil env fuel subSrc (lc "/r") (some mkcmt) st1 true es))))

theorem s_va_err (env : Env) (fuel : Nat) (e : BundleError)
    (h : visit_node env fuel subSrc (lc "/r") csub ⟨none, none, some mkcmt⟩
      st1 true [e1] = .error e) :
    visit_node env fuel subSrc (lc "/r") va ⟨some mkcmt, some mkcmt, none⟩
      st1 true [e1] = .error e :=
  visit_node_step
    (handle_node_other _ _ _ _ _ _ _ _ (by decide) (by decide) (by decide))
    (visit_list_step (s_vnm env fuel)
      (visit_list_step (s_eqs env fuel) (visit_list_step_err h)))

theorem s_root_ok (env : Env) (fuel : Nat) (es : List Edit)
    (hva : visit_node env fuel subSrc (lc "/r") va ⟨some mkcmt, some mkcmt, none⟩
      st1 true [e1] = .ok (st1, true, es)) :
    visit_node env fuel subSrc (lc "/r") subTree ⟨none, none, none⟩ st0 false [] =
      .ok (st1, true, es) :=
  visit_node_step
    (handle_node_other _ _ _ _ _ _ _ _ (by decide) (by decide) (by decide))
    (visit_list_step (s_cmt env fuel)
      (visit_list_step hva
        (visit_list_step (s_mk env fuel es)
          (visit_list_nil env fuel subSrc (lc "/r") none st1 true es))))

theorem s_root_err (env : Env) (fuel : Nat) (e : BundleError)
    (hva : visit_node env fuel subSrc (lc "/r") va ⟨some mkcmt, some mkcmt, none⟩
      st1 true [e1] = .error e) :
    visit_node env fuel subSrc (lc "/r") subTree ⟨none, none, none⟩ st0 false [] =
      .error e :=
  visit_node_step
    (handle_node_other _ _ _ _ _ _ _ _ (by decide) (by decide) (by decide))
    (visit_list_step (s_cmt env fuel) (visit_list_step_err hva))

theorem sub_string_demo (fuel : Nat) :
    bundle_from_string demoEnv fuel subSrc (lc "/r") st0 = .ok (st1, outSub) := by
  rw [bundle_from_string_run fuel (lc "/r") st0
    (show demoEnv.parse subSrc = some subTree from rfl),
    after_parse_visit (s_root_ok demoEnv fuel [e1, esub, emk]
      (s_va_ok demoEnv fuel [e1, esub, emk] (s_csub_demo fuel)))]
  decide

theorem sub_bundle_demo (fuel : Nat) :
    bundle demoEnv fuel (lc "/r") subSrc (lc "/r") =
      .ok (lc "#!/bin/sh\n\nA=$(echo 'aGk=' | base64 -d) \n") := by
  rw [bundle_ok (sub_string_demo fuel) (show st1.shabang = some (lc "#!/bin/sh") from rfl)]
  decide

theorem sub_string_stderr (fuel : Nat) :
    bundle_from_string stderrEnv fuel subSrc (lc "/r") st0 = .error .stderrNotUtf8 := by
  rw [bundle_from_string_run fuel (lc "/r") st0
    (show stderrEnv.parse subSrc = some subTree from rfl)]
  exact after_parse_err (s_root_err stderrEnv fuel _
    (s_va_err stderrEnv fuel _ (s_csub_stderr fuel)))

theorem sub_bundle_stderr (fuel : Nat) :
    bundle stderrEnv fuel (lc "/r") subSrc (lc "/r") = .error .stderrNotUtf8 :=
  bundle_err (sub_string_stderr fuel)

theorem sub_string_fail (fuel : Nat) :
    bundle_from_string failEnv fuel subSrc (lc "/r") st0 =
      .error (.subcommandFailed (lc "printf 'hi'") 3) := by
  rw [bundle_from_string_run fuel (lc "/r") st0
    (show failEnv.parse subSrc = some subTree from rfl)]
  exact after_parse_err (s_root_err failEnv fuel _
    (s_va_err failEnv fuel _ (s_csub_fail fuel)))

theorem sub_bundle_fail (fuel : Nat) :
    bundle failEnv fuel (lc "/r") subSrc (lc "/r") =
      .error (.subcommandFailed (lc "printf 'hi'") 3) :=
  bundle_err (sub_string_fail fuel)

/-- The general single-selector no-directive bundling equation: the
output is the selector, a blank line, and the source with the span from
the selector's start byte to its next sibling's start byte (or its own
end byte) removed. -/
theorem bundle_shabang_only (env : Env) (fuel : Nat) (root_dir source cwd : Str)
    (prog cmt' : STNode) (rest : List STNode)
    (hparse : env.parse source = some prog)
    (hk1 : ¬ prog.kind = "comment") (hk2 : ¬ prog.kind = "command")
    (hk3 : ¬ prog.kind = "command_substitution")
    (hch : prog.children = cmt' :: rest)
    (hck : cmt'.kind = "comment")
    (hp : ("#!".toList).isPrefixOf (textOf source cmt') = true)
    (hrow : cmt'.row = 0)
    (hcc : cmt'.children = [])
    (hinert : InertForest source (forestNodes rest))
    (hs : cmt'.start_byte < 2 ^ 64)
    (he : (rest.head?.map STNode.start_byte).getD cmt'.end_byte < 2 ^ 64) :
    bundle env fuel root_dir source cwd =
      .ok (textOf source cmt' ++ "\n\n".toList ++
        (source.take cmt'.start_byte ++
          source.drop ((rest.head?.map STNode.start_byte).getD cmt'.end_byte))) := by
  have h1 : handle_node env fuel source cwd cmt' ⟨rest.head?, firstNamed rest, none⟩
      ⟨root_dir, none, [], []⟩ false [] =
      .ok (⟨root_dir, some (textOf source cmt'), [], []⟩, true,
        [⟨cmt'.start_byte, (rest.head?.map STNode.start_byte).getD cmt'.end_byte, []⟩]) := by
    rw [handle_node_comment hck,
      comment_case_fresh source cmt' ⟨rest.head?, firstNamed rest, none⟩
        ⟨root_dir, none, [], []⟩ [] hp hrow rfl]
    rfl
  have hcv : visit_node env fuel source cwd cmt' ⟨rest.head?, firstNamed rest, none⟩
      ⟨root_dir, none, [], []⟩ false [] =
      .ok (⟨root_dir, some (textOf source cmt'), [], []⟩, true,
        [⟨cmt'.start_byte, (rest.head?.map STNode.start_byte).getD cmt'.end_byte, []⟩]) :=
    visit_node_step h1 (by
      rw [hcc]
      exact visit_list_nil env fuel source cwd (firstNamed rest) _ true _)
  have hvisit : visit_node env fuel source cwd prog ⟨none, none, none⟩
      ⟨root_dir, none, [], []⟩ false [] =
      .ok (⟨root_dir, some (textOf source cmt'), [], []⟩, true,
        [⟨cmt'.start_byte, (rest.head?.map STNode.start_byte).getD cmt'.end_byte, []⟩]) := by
    refine visit_node_step
      (handle_node_other env fuel source cwd ⟨none, none, none⟩ _ false [] hk1 hk2 hk3) ?_
    rw [hch]
    exact visit_list_step hcv
      (visit_list_inert env fuel source cwd rest _ _ true _ hinert
        (Or.inl (fun s h => Option.noConfusion h)))
  have happ : apply_edits source
      [⟨cmt'.start_byte, (rest.head?.map STNode.start_byte).getD cmt'.end_byte, []⟩] =
      .ok (source.take cmt'.start_byte ++
        source.drop ((rest.head?.map STNode.start_byte).getD cmt'.end_byte)) := by
    rw [apply_edits_single source _ hs he]
    simp
  rw [bundle_ok ((bundle_from_string_run fuel cwd ⟨root_dir, none, [], []⟩ hparse).trans
    ((after_parse_visit hvisit).trans (finish_true happ))) rfl]

theorem b_bundle (fuel : Nat) :
    bundle demoEnv fuel (lc "/r") bSrc (lc "/r") = .ok (lc "#!/bin/sh\n\necho b\n") := by
  rw [bundle_shabang_only demoEnv fuel (lc "/r") bSrc (lc "/r") bTree cmt [bcmd]
    rfl (by decide) (by decide) (by decide) rfl rfl (by decide) rfl rfl
    (by unfold InertForest; decide) (by decide) (by decide)]
  decide

theorem gap_bundle (fuel : Nat) :
    bundle demoEnv fuel (lc "/r") gapSrc (lc "/r") = .ok (lc "#!/bin/sh\n\necho c\n") := by
  rw [bundle_shabang_only demoEnv fuel (lc "/r") gapSrc (lc "/r") gapTree cmt [gcmd]
    rfl (by decide) (by decide) (by decide) rfl rfl (by decide) rfl rfl
    (by unfold InertForest; decide) (by decide) (by decide)]
  decide

/-! ## The claims -/

/-- C1: the claim that `bundle()` raises the selector-missing error iff no
file in the graph declares a selector, and that a document without its own
selector bundles successfully once another file fixed the run-wide
selector, is refuted: bundling `noSelSrc` reaches `b.sh`, whose selector
becomes the run-wide one (the traversal returns it in the run state), yet
the run fails with the per-file error `shabangRequired`. -/
theorem C1_counterexample :
    visit_node demoEnv 2 noSelSrc (lc "/r") noSelTree ⟨none, none, none⟩
      st0 false [] = .ok (st2, false, [en]) ∧
    st2.shabang = some (lc "#!/bin/sh") ∧
    bundle demoEnv 2 (lc "/r") noSelSrc (lc "/r") = .error .shabangRequired ∧
    (.error .shabangRequired : Except BundleError Str) ≠ .error .shabangMissing :=
  ⟨nosel_root 1, rfl, nosel_bundle 1, by decide⟩

/-- C1 (amended): a document that itself records no selector during its own
traversal makes the whole bundle fail with the per-file error
`shabangRequired`, even when another file of the graph has fixed the
run-wide selector; a document declaring its own selector bundles. -/
theorem C1_amended :
    (∀ (env : Env) (fuel : Nat) (root_dir source cwd : Str) (root : STNode)
      (st' : Bundler) (edits : List Edit),
      env.parse source = some root →
      visit_node env fuel source cwd root ⟨none, none, none⟩
        ⟨root_dir, none, [], []⟩ false [] = .ok (st', false, edits) →
      bundle env fuel root_dir source cwd = .error .shabangRequired) ∧
    bundle demoEnv 2 (lc "/r") noSelSrc (lc "/r") = .error .shabangRequired ∧
    bundle demoEnv 1 (lc "/r") bSrc (lc "/r") = .ok (lc "#!/bin/sh\n\necho b\n") :=
  ⟨fun env fuel root_dir source cwd root st' edits hparse hvisit =>
    bundle_err ((bundle_from_string_run fuel cwd _ hparse).trans
      ((after_parse_visit hvisit).trans finish_false)),
   nosel_bundle 1, b_bundle 1⟩

/-- C2: the claim that the bundled output is the selector, two newlines and
the body with only the selector line and its trailing newline removed is
refuted by a document with a blank line after the selector: the queued edit
spans to the next sibling node, so the blank line is removed too. -/
theorem C2_counterexample :
    bundle demoEnv 1 (lc "/r") gapSrc (lc "/r") = .ok (lc "#!/bin/sh\n\necho c\n") ∧
    textOf gapSrc cmt ++ "\n\n".toList ++ selectorLineRemoved gapSrc cmt =
      lc "#!/bin/sh\n\n\necho c\n" ∧
    (lc "#!/bin/sh\n\necho c\n" : Str) ≠ lc "#!/bin/sh\n\n\necho c\n" :=
  ⟨gap_bundle 1, by decide, by decide⟩

/-- C2 (amended): for a parsed document whose first child is a valid
first-line selector comment and whose remaining forest contains no
directives, bundling returns the selector, a blank line, and the source
with the span from the selector start byte to the next sibling start byte
(or the selector end byte when no sibling follows) removed. -/
theorem C2_amended :
    (∀ (env : Env) (fuel : Nat) (root_dir source cwd : Str) (prog cmt' : STNode)
      (rest : List STNode),
      env.parse source = some prog →
      ¬ prog.kind = "comment" → ¬ prog.kind = "command" →
      ¬ prog.kind = "command_substitution" →
      prog.children = cmt' :: rest →
      cmt'.kind = "comment" →
      ("#!".toList).isPrefixOf (textOf source cmt') = true →
      cmt'.row = 0 →
      cmt'.children = [] →
      InertForest source (forestNodes rest) →
      cmt'.start_byte < 2 ^ 64 →
      (rest.head?.map STNode.start_byte).getD cmt'.end_byte < 2 ^ 64 →
      bundle env fuel root_dir source cwd =
        .ok (textOf source cmt' ++ "\n\n".toList ++
          (source.take cmt'.start_byte ++
            source.drop ((rest.head?.map STNode.start_byte).getD cmt'.end_byte)))) ∧
    bundle demoEnv 1 (lc "/r") bSrc (lc "/r") = .ok (lc "#!/bin/sh\n\necho b\n") :=
  ⟨fun env fuel root_dir source cwd prog cmt' rest hparse hk1 hk2 hk3 hch hck hp hrow
      hcc hinert hs he =>
    bundle_shabang_only env fuel root_dir source cwd prog cmt' rest hparse hk1 hk2
      hk3 hch hck hp hrow hcc hinert hs he,
   b_bundle 1⟩

/-- C3: an include directive whose resolved canonical path is already in
the visited set is replaced by the empty string without error and without
re-resolving the file, and in the dedup fixture (the same file sourced
twice) the body of `b.sh` is inlined exactly once, the second directive
becoming empty in the bundled output. -/
theorem C3_dedup :
    (∀ (env : Env) (inc : Str → Bundler → Except BundleError (Bundler × Str))
      (source cwd : Str) (n nn : STNode) (st : Bundler) (found : Bool)
      (edits : List Edit) (arg path : Str),
      n.children.head? = some nn →
      (textOf source nn = "source".toList ∨ textOf source nn = ".".toList) →
      source_argument source n = some arg →
      env.canonical cwd arg = some path →
      path ∈ st.visited →
      command_case env inc source cwd n st found edits =
        .ok (st, found, edits ++ [⟨n.start_byte, n.end_byte, []⟩])) ∧
    bundle demoEnv 2 (lc "/r") topSrc (lc "/r") =
      .ok (lc "#!/bin/sh\n\n# source b.sh\n\necho b\n\n\n#########\n\n") :=
  ⟨fun env inc source cwd n nn st found edits arg path h1 h2 h3 h4 h5 =>
    command_case_visited env inc source cwd st found edits arg path h1 h2 h3 h4 h5,
   top_bundle 1⟩

/-- C4: a path already on the visiting stack is rejected with the circular
dependency error for every environment, so no read of that file happens;
a successful path bundle restores the visiting stack and records the path
as visited; and the self-sourcing fixture `a.sh` fails with the circular
dependency error. -/
theorem C4_circular :
    (∀ (env : Env) (fuel : Nat) (path : Str) (st : Bundler),
      path ∈ st.visiting →
      bundle_from_path env fuel path st = .error .circularDependency) ∧
    (∀ (env : Env) (fuel : Nat) (path : Str) (st st' : Bundler) (out : Str),
      bundle_from_path env fuel path st = .ok (st', out) →
      st'.visiting = st.visiting ∧ path ∈ st'.visited) ∧
    bundle_from_path demoEnv 2 (lc "/r/a.sh") st0 = .error .circularDependency :=
  ⟨fun env fuel path st h => bundle_from_path_cycle h,
   fun env fuel path st st' out h =>
     ⟨((bundler_invariants env fuel).1 path st st' out h).1.2.1,
      ((bundler_invariants env fuel).1 path st st' out h).2.1⟩,
   a_path 1⟩

/-- C5: shabang validation order: a second occurrence in the same document
is rejected first (whatever the row or the saved selector); a selector off
row zero is rejected next (whatever the saved selector); a first-row
selector conflicting with the saved one errors naming both texts; a
matching or fresh one succeeds, recording the text and queueing the
removal edit. -/
theorem C5_selector_order :
    (∀ (source : Str) (n : STNode) (ctx : Ctx) (st : Bundler) (edits : List Edit),
      ("#!".toList).isPrefixOf (textOf source n) = true →
      comment_case source n ctx st true edits = .error .shabangDuplicate) ∧
    (∀ (source : Str) (n : STNode) (ctx : Ctx) (st : Bundler) (edits : List Edit),
      ("#!".toList).isPrefixOf (textOf source n) = true → n.row ≠ 0 →
      comment_case source n ctx st false edits = .error .shabangMisplaced) ∧
    (∀ (source : Str) (n : STNode) (ctx : Ctx) (st : Bundler) (edits : List Edit)
      (saved : Str),
      ("#!".toList).isPrefixOf (textOf source n) = true → n.row = 0 →
      st.shabang = some saved → saved ≠ textOf source n →
      comment_case source n ctx st false edits =
        .error (.shabangConflict saved (textOf source n))) ∧
    (∀ (source : Str) (n : STNode) (ctx : Ctx) (st : Bundler) (edits : List Edit),
      ("#!".toList).isPrefixOf (textOf source n) = true → n.row = 0 →
      st.shabang = some (textOf source n) →
      comment_case source n ctx st false edits = .ok (st, true, edits ++
        [⟨n.start_byte, ((ctx.next).map STNode.start_byte).getD n.end_byte, []⟩])) ∧
    (∀ (source : Str) (n : STNode) (ctx : Ctx) (st : Bundler) (edits : List Edit),
      ("#!".toList).isPrefixOf (textOf source n) = true → n.row = 0 →
      st.shabang = none →
      comment_case source n ctx st false edits =
        .ok ({ st with shabang := some (textOf source n) }, true, edits ++
          [⟨n.start_byte, ((ctx.next).map STNode.start_byte).getD n.end_byte, []⟩])) :=
  ⟨fun source n ctx st edits hp => comment_case_dup ctx st edits hp,
   fun source n ctx st edits hp hrow => comment_case_misplaced ctx st edits hp hrow,
   fun source n ctx st edits saved hp hrow hsh hne =>
     comment_case_conflict ctx st edits saved hp hrow hsh hne,
   fun source n ctx st edits hp hrow hsh => comment_case_same source n ctx st edits hp hrow hsh,
   fun source n ctx st edits hp hrow hsh => comment_case_fresh source n ctx st edits hp hrow hsh⟩

/-- C6: an include of a not-yet-visited file replaces the directive node
span with the marker comment carrying the path relative to the root, a
blank line, the recursively bundled body, a blank line and the fixed
separator; a resolved path that cannot be expressed relative to the root
raises the outside-root error instead of inlining. -/
theorem C6_include_replacement :
    (∀ (env : Env) (fuel : Nat) (source cwd : Str) (n nn : STNode) (ctx : Ctx)
      (st st' : Bundler) (found : Bool) (edits : List Edit)
      (arg path relPath inner : Str),
      n.kind = "command" →
      n.children.head? = some nn →
      (textOf source nn = "source".toList ∨ textOf source nn = ".".toList) →
      source_argument source n = some arg →
      env.canonical cwd arg = some path →
      path ∉ st.visited →
      env.rel st.path_relative_to path = some relPath →
      bundle_from_path env fuel path st = .ok (st', inner) →
      handle_node env (fuel + 1) source cwd n ctx st found edits =
        .ok (st', found, edits ++ [⟨n.start_byte, n.end_byte,
          "# source ".toList ++ relPath ++ "\n\n".toList ++ inner ++
            "\n\n".toList ++ "#########".toList⟩])) ∧
    (∀ (env : Env) (fuel : Nat) (source cwd : Str) (n nn : STNode) (ctx : Ctx)
      (st : Bundler) (found : Bool) (edits : List Edit) (arg path : Str),
      n.kind = "command" →
      n.children.head? = some nn →
      (textOf source nn = "source".toList ∨ textOf source nn = ".".toList) →
      source_argument source n = some arg →
      env.canonical cwd arg = some path →
      path ∉ st.visited →
      env.rel st.path_relative_to path = none →
      handle_node env fuel source cwd n ctx st found edits =
        .error (.outsideRoot arg)) :=
  ⟨fun env fuel source cwd n nn ctx st st' found edits arg path relPath inner
      hk h1 h2 h3 h4 h5 h6 h7 => by
    rw [handle_node_command hk]
    exact command_case_source env (include_resolver env (fuel + 1)) source cwd st
      found edits arg path relPath st' inner h1 h2 h3 h4 h5 h6
      (show include_resolver env (fuel + 1) path st = .ok (st', inner) from h7),
   fun env fuel source cwd n nn ctx st found edits arg path hk h1 h2 h3 h4 h5 h6 => by
    rw [handle_node_command hk]
    exact command_case_outside env (include_resolver env fuel) source cwd st
      found edits arg path h1 h2 h3 h4 h5 h6⟩

/-- C7: a command substitution whose next relevant sibling (own next named
sibling or, when absent, the parent next named sibling) is exactly the
marker comment has its stripped inner command run; the stdout is base64
encoded into a replacement decoding substitution, the marker comment is
emptied, and no other sibling text triggers the rewrite; the fixture
bundles to the decoded-at-run-time form. -/
theorem C7_inline_build :
    (∀ (env : Env) (source : Str) (n : STNode) (ctx : Ctx) (st : Bundler)
      (found : Bool) (edits : List Edit) (sib : STNode) (output : ExecResult),
      ctx.nextNamed.or ctx.parentNextNamed = some sib →
      sib.kind = "comment" ∧ textOf source sib = markerText →
      env.run (((textOf source n).drop 2).dropLast) = some output →
      output.success = true →
      output.stderr = [] →
      substitution_case env source n ctx st found edits =
        .ok (st, found, edits ++
          [⟨n.start_byte, n.end_byte,
            "$(echo '".toList ++ base64Encode output.stdout ++
              "' | base64 -d)".toList⟩,
           ⟨sib.start_byte, sib.end_byte, []⟩])) ∧
    (∀ (env : Env) (source : Str) (n : STNode) (ctx : Ctx) (st : Bundler)
      (found : Bool) (edits : List Edit) (sib : STNode),
      ctx.nextNamed.or ctx.parentNextNamed = some sib →
      ¬ (sib.kind = "comment" ∧ textOf source sib = markerText) →
      substitution_case env source n ctx st found edits = .ok (st, found, edits)) ∧
    bundle demoEnv 1 (lc "/r") subSrc (lc "/r") =
      .ok (lc "#!/bin/sh\n\nA=$(echo 'aGk=' | base64 -d) \n") :=
  ⟨fun env source n ctx st found edits sib output hs hm hr hok he =>
    substitution_case_run env source n ctx st found edits hs hm hr hok (Or.inl he),
   fun env source n ctx st found edits sib hs hm =>
    substitution_case_skip env source n ctx st found edits hs hm,
   sub_bundle_demo 1⟩

/-- C8: the claim that non-empty stderr of an executed inline-build
command is only a diagnostic and never aborts the run is refuted: when the
captured stderr bytes are not valid UTF-8, the run aborts even though the
command exited successfully. -/
theorem C8_counterexample :
    stderrEnv.run (lc "printf 'hi'") = some ⟨true, 0, [104, 105], [255]⟩ ∧
    validUtf8 [255] = false ∧
    bundle stderrEnv 1 (lc "/r") subSrc (lc "/r") = .error .stderrNotUtf8 :=
  ⟨rfl, rfl, sub_bundle_stderr 1⟩

/-- C8 (amended): a non-zero exit status of the executed inline-build
command is a hard error naming the stripped command text and the exit
code, and the bundle produces no output; non-empty stderr is non-fatal
only when its bytes are valid UTF-8 — invalid UTF-8 stderr aborts the
run. -/
theorem C8_amended :
    (∀ (env : Env) (source : Str) (n : STNode) (ctx : Ctx) (st : Bundler)
      (found : Bool) (edits : List Edit) (sib : STNode) (output : ExecResult),
      ctx.nextNamed.or ctx.parentNextNamed = some sib →
      sib.kind = "comment" ∧ textOf source sib = markerText →
      env.run (((textOf source n).drop 2).dropLast) = some output →
      output.success = false →
      substitution_case env source n ctx st found edits =
        .error (.subcommandFailed (((textOf source n).drop 2).dropLast)
          output.code)) ∧
    (∀ (env : Env) (source : Str) (n : STNode) (ctx : Ctx) (st : Bundler)
      (found : Bool) (edits : List Edit) (sib : STNode) (output : ExecResult),
      ctx.nextNamed.or ctx.parentNextNamed = some sib →
      sib.kind = "comment" ∧ textOf source sib = markerText →
      env.run (((textOf source n).drop 2).dropLast) = some output →
      output.success = true →
      validUtf8 output.stderr = true →
      substitution_case env source n ctx st found edits =
        .ok (st, found, edits ++
          [⟨n.start_byte, n.end_byte,
            "$(echo '".toList ++ base64Encode output.stdout ++
              "' | base64 -d)".toList⟩,
           ⟨sib.start_byte, sib.end_byte, []⟩])) ∧
    (∀ (env : Env) (source : Str) (n : STNode) (ctx : Ctx) (st : Bundler)
      (found : Bool) (edits : List Edit) (sib : STNode) (output : ExecResult),
      ctx.nextNamed.or ctx.parentNextNamed = some sib →
      sib.kind = "comment" ∧ textOf source sib = markerText →
      env.run (((textOf source n).drop 2).dropLast) = some output →
      output.success = true →
      output.stderr ≠ [] →
      validUtf8 output.stderr = false →
      substitution_case env source n ctx st found edits = .error .stderrNotUtf8) ∧
    bundle failEnv 1 (lc "/r") subSrc (lc "/r") =
      .error (.subcommandFailed (lc "printf 'hi'") 3) :=
  ⟨fun env source n ctx st found edits sib output hs hm hr hfail =>
    substitution_case_fail env source n ctx st found edits hs hm hr hfail,
   fun env source n ctx st found edits sib output hs hm hr hok hv =>
    substitution_case_run env source n ctx st found edits hs hm hr hok (Or.inr hv),
   fun env source n ctx st found edits sib output hs hm hr hok hne hbad =>
    substitution_case_stderr env source n ctx st found edits hs hm hr hok hne hbad,
   sub_bundle_fail 1⟩

/-- C9: the claim that applying pairwise non-overlapping edits in any
insertion order yields the same text is refuted by two zero-width
insertions at the same offset: both lists are non-overlapping under the
adjacent-pair rule and permutations of each other, yet the stable sort
preserves insertion order and the outputs differ. -/
theorem C9_counterexample :
    (∀ d ∈ [ia, ib], ∀ d' ∈ [ia, ib],
      d.end_byte ≤ d'.start_byte ∨ d'.end_byte ≤ d.start_byte) ∧
    List.Perm [ia, ib] [ib, ia] ∧
    apply_edits (lc "xy") [ia, ib] = .ok (lc "xaby") ∧
    apply_edits (lc "xy") [ib, ia] = .ok (lc "xbay") ∧
    (lc "xaby" : Str) ≠ lc "xbay" := by
  decide

/-- C9 (amended): `apply_edits` stable-sorts by start offset and errors
exactly when an adjacent pair after sorting overlaps; insertion order is
irrelevant for edit lists with pairwise distinct start offsets. -/
theorem C9_amended :
    (∀ (source : Str) (edits : List Edit), edits ≠ [] →
      apply_edits source edits =
        (if adjOverlap (edits.insertionSort (fun a b => a.start_byte ≤ b.start_byte))
          then .error .editsNotDisjoint
          else .ok (apply_edits_loop source 0
            (edits.insertionSort (fun a b => a.start_byte ≤ b.start_byte))))) ∧
    (∀ (source : Str) (l₁ l₂ : List Edit), l₁.Perm l₂ →
      l₁.Pairwise (fun a b => a.start_byte ≠ b.start_byte) →
      apply_edits source l₁ = apply_edits source l₂) ∧
    apply_edits (lc "xy") [⟨0, 1, lc "A"⟩, ⟨1, 2, lc "B"⟩] = .ok (lc "AB") ∧
    apply_edits (lc "xy") [⟨1, 2, lc "B"⟩, ⟨0, 1, lc "A"⟩] = .ok (lc "AB") ∧
    apply_edits (lc "xy") [⟨0, 2, lc "A"⟩, ⟨1, 2, lc "B"⟩] =
      .error .editsNotDisjoint := by
  refine ⟨?_, ?_, by decide, by decide, by decide⟩
  · intro source edits hne
    have hsne : edits.insertionSort (fun a b => a.start_byte ≤ b.start_byte) ≠ [] := by
      intro h
      apply hne
      have hl := List.length_insertionSort
        (fun a b : Edit => a.start_byte ≤ b.start_byte) edits
      rw [h] at hl
      exact List.length_eq_zero.mp hl.symm
    show (match
        disjointCheck (edits.insertionSort fun a b => a.start_byte ≤ b.start_byte)
          (lenPred (edits.insertionSort fun a b => a.start_byte ≤ b.start_byte).length)
          0 with
      | .error e => (.error e : Except BundleError Str)
      | .ok _ => .ok (apply_edits_loop source 0
          (edits.insertionSort fun a b => a.start_byte ≤ b.start_byte))) = _
    rw [disjointCheck_spec _ hsne]
    by_cases hov : adjOverlap
        (edits.insertionSort fun a b => a.start_byte ≤ b.start_byte) = true
    · rw [if_pos hov, if_pos hov]
    · rw [if_neg hov, if_neg hov]
  · intro source l₁ l₂ hperm hdist
    haveI : IsTotal Edit (fun a b => a.start_byte ≤ b.start_byte) :=
      ⟨fun a b => Nat.le_total a.start_byte b.start_byte⟩
    haveI : IsTrans Edit (fun a b => a.start_byte ≤ b.start_byte) :=
      ⟨fun a b c h1 h2 => Nat.le_trans h1 h2⟩
    have h1 := List.perm_insertionSort
      (fun a b : Edit => a.start_byte ≤ b.start_byte) l₁
    have h2 := List.perm_insertionSort
      (fun a b : Edit => a.start_byte ≤ b.start_byte) l₂
    have hsorteq : l₁.insertionSort (fun a b => a.start_byte ≤ b.start_byte) =
        l₂.insertionSort (fun a b => a.start_byte ≤ b.start_byte) :=
      sorted_eq_of_perm_of_distinct (h1.trans (hperm.trans h2.symm))
        (List.sorted_insertionSort _ l₁) (List.sorted_insertionSort _ l₂)
        ((List.Perm.pairwise_iff (fun h => h.symm) h1.symm).mp hdist)
    unfold apply_edits
    rw [hsorteq]

/-- C10: `apply_edits` on the empty list panics: the loop bound
`edits.len() - 1` wraps to `2 ^ 64 - 1` on `usize` and the first index
access is out of bounds, so the call never returns normally for zero
edits; the call site guarantees at least one edit because a successful
traversal with the shabang flag set has queued at least one edit. -/
theorem C10_empty_panic :
    (∀ source : Str, apply_edits source [] = .error .panicIndexOutOfBounds) ∧
    lenPred 0 = 2 ^ 64 - 1 ∧
    (∀ (env : Env) (fuel : Nat) (source cwd : Str) (root : STNode)
      (st st' : Bundler) (es : List Edit),
      visit_node env fuel source cwd root ⟨none, none, none⟩ st false [] =
        .ok (st', true, es) →
      es ≠ []) := by
  refine ⟨fun source => rfl, by decide, ?_⟩
  intro env fuel source cwd root st st' es h
  have hv := (bundler_invariants env fuel).2.2.1 source cwd root
    ⟨none, none, none⟩ st false [] st' true es h
  obtain ⟨_, ⟨t, ht⟩, _, flip, _, _⟩ := hv
  rcases flip rfl with hf | hne
  · exact absurd hf (by simp)
  · intro hnil
    rw [hnil] at hne
    exact hne rfl

end Shpack
